import Mathlib

/-!
Shallow embedding of the ant-ai MCP client core, translated from the
TypeScript sources:
  * `src/internal/registry/productionRegistry/toolStorer/storer.ts` (ToolStore)
  * `src/internal/shared/messages/messages.ts` (content blocks, vendor ingest)
  * `src/internal/registry/registryClient.ts` (RegistryClient)
  * `src/client/client.ts` (AntClient.processQuery, second variant,
    MAX_RECURSION_DEPTH = 10)
  * `src/registry/inMemoryRegistry.ts` / part_008 (inMemoryRegistry,
    RegistryMcpServer)
External collaborators (vendor LLM, MCP network peers, embedding-based
similarity search, JSON serialization of opaque payloads) are modelled as
oracles passed in as explicit function arguments.
-/

namespace AntAI

/-! ## Basic data model (shared/tools, shared/mcpServer) -/

/-- Models `Tool` from `@modelcontextprotocol/sdk` as used by the repo:
`{ name, description?, inputSchema }`.  The JSON-Schema object is opaque to
all the code modelled here, so it is kept as a `String`. -/
structure MCPTool where
  name : String
  description : Option String
  inputSchema : String
deriving Repr, DecidableEq

/-- Models `MCPServer` from `src/internal/shared/mcpServer/server.ts`. -/
structure MCPServer where
  url : String
  type : String
  authToken : Option String
deriving Repr, DecidableEq

/-- Models `MCPServer.getId()`: `` `${this.url}::${this.type}` ``. -/
def MCPServer.getId (s : MCPServer) : String := s.url ++ "::" ++ s.type

/-- Models `ToolWithServerInfo` from `src/internal/shared/tools/tool.ts`. -/
structure ToolWithServerInfo where
  tool : MCPTool
  server : MCPServer
deriving Repr, DecidableEq

/-- Opaque tool-call arguments.  The modelled code only passes them through
(`toolArgs` is never inspected), so a wrapped string suffices. -/
structure Args where
  raw : String
deriving Repr, DecidableEq

/-! ## JavaScript `Map` model

A JS `Map` is an insertion-ordered key-value table: `set` overwrites the
value in place when the key exists and appends otherwise; `delete` removes
the entry; iteration follows insertion order.  We model it as an
association list. -/

def mapGet (m : List (String × α)) (k : String) : Option α :=
  (m.find? (fun p => p.1 = k)).map (·.2)

def mapSet (m : List (String × α)) (k : String) (v : α) : List (String × α) :=
  if (m.find? (fun p => p.1 = k)).isSome then
    m.map (fun p => if p.1 = k then (k, v) else p)
  else
    m ++ [(k, v)]

def mapHas (m : List (String × α)) (k : String) : Bool :=
  (mapGet m k).isSome

def mapDelete (m : List (String × α)) (k : String) : List (String × α) :=
  m.filter (fun p => p.1 ≠ k)

theorem find?_map_overwrite (m : List (String × α)) (k : String) (v : α) :
    (m.map (fun p => if p.1 = k then (k, v) else p)).find? (fun p => p.1 = k)
      = if (m.find? (fun p => p.1 = k)).isSome then some (k, v) else none := by
  induction m with
  | nil => simp
  | cons p rest ih =>
    by_cases hp : p.1 = k
    · rw [List.map_cons, if_pos hp, List.find?_cons, List.find?_cons]
      simp [hp]
    · rw [List.map_cons, if_neg hp, List.find?_cons, List.find?_cons]
      simp only [hp, decide_False, ih]

theorem find?_map_overwrite_ne (m : List (String × α)) (k k' : String) (v : α)
    (h : k' ≠ k) :
    (m.map (fun p => if p.1 = k then (k, v) else p)).find? (fun p => p.1 = k')
      = m.find? (fun p => p.1 = k') := by
  induction m with
  | nil => simp
  | cons p rest ih =>
    by_cases hp : p.1 = k
    · have hp' : ¬ p.1 = k' := by
        rw [hp]; exact fun hc => h hc.symm
      have hk : ¬ ((k, v).1 = k') := fun hc => h hc.symm
      rw [List.map_cons, if_pos hp, List.find?_cons, List.find?_cons]
      simp only [hk, hp', decide_False, ih]
    · rw [List.map_cons, if_neg hp, List.find?_cons, List.find?_cons]
      by_cases hp' : p.1 = k'
      · simp [hp']
      · simp only [hp', decide_False, ih]

theorem find?_append_singleton_ne (m : List (String × α)) (k k' : String) (v : α)
    (h : k' ≠ k) :
    (m ++ [(k, v)]).find? (fun p => p.1 = k') = m.find? (fun p => p.1 = k') := by
  induction m with
  | nil =>
    have hk : ¬ ((k, v).1 = k') := fun hc => h hc.symm
    simp [List.find?_cons, hk]
  | cons p rest ih =>
    rw [List.cons_append, List.find?_cons, List.find?_cons]
    by_cases hp' : p.1 = k'
    · simp [hp']
    · simp only [hp', decide_False, ih]

theorem mapGet_mapSet_self (m : List (String × α)) (k : String) (v : α) :
    mapGet (mapSet m k v) k = some v := by
  unfold mapGet mapSet
  by_cases hf : (m.find? (fun p => p.1 = k)).isSome
  · rw [if_pos hf, find?_map_overwrite, if_pos hf]
    rfl
  · rw [if_neg hf]
    induction m with
    | nil => simp [List.find?_cons]
    | cons p rest ih =>
      by_cases hp : p.1 = k
      · exfalso
        apply hf
        simp [List.find?_cons, hp]
      · rw [List.find?_cons] at hf
        simp only [hp, decide_False] at hf
        rw [List.cons_append, List.find?_cons]
        simp only [hp, decide_False]
        exact ih hf

theorem mapGet_mapSet_ne (m : List (String × α)) (k k' : String) (v : α)
    (h : k' ≠ k) : mapGet (mapSet m k v) k' = mapGet m k' := by
  unfold mapGet mapSet
  by_cases hf : (m.find? (fun p => p.1 = k)).isSome
  · rw [if_pos hf, find?_map_overwrite_ne m k k' v h]
  · rw [if_neg hf, find?_append_singleton_ne m k k' v h]

theorem mapHas_mapSet_of_mapHas (m : List (String × α)) (k k' : String) (v : α)
    (h : mapHas m k' = true) : mapHas (mapSet m k v) k' = true := by
  by_cases hk : k' = k
  · subst hk
    simp [mapHas, mapGet_mapSet_self]
  · simpa [mapHas, mapGet_mapSet_ne m k k' v hk] using h

/-! ## String helpers -/

/-- JavaScript `Array.prototype.join(sep)`. -/
def joinSep (sep : String) : List String → String
  | [] => ""
  | [a] => a
  | a :: b :: rest => a ++ sep ++ joinSep sep (b :: rest)

/-- Models `hay` contains `needle` as a substring (JS `String.prototype.includes`,
stated as a decomposition). -/
def strContains (hay needle : String) : Prop :=
  ∃ pre post, hay = pre ++ needle ++ post

theorem strContains_of_mem_joinSep (sep : String) (l : List String) (x : String)
    (hx : x ∈ l) : strContains (joinSep sep l) x := by
  induction l with
  | nil => cases hx
  | cons a rest ih =>
    cases rest with
    | nil =>
      rcases List.mem_singleton.mp hx with rfl
      exact ⟨"", "", by simp [joinSep]⟩
    | cons b rest' =>
      rcases List.mem_cons.mp hx with rfl | hmem
      · exact ⟨"", sep ++ joinSep sep (b :: rest'), by
          show joinSep sep (x :: b :: rest') = "" ++ x ++ (sep ++ joinSep sep (b :: rest'))
          rw [joinSep]
          simp [String.append_assoc]⟩
      · rcases ih hmem with ⟨pre, post, hdec⟩
        refine ⟨a ++ sep ++ pre, post, ?_⟩
        show joinSep sep (a :: b :: rest') = a ++ sep ++ pre ++ x ++ post
        rw [joinSep, hdec]
        simp [String.append_assoc]

theorem strContains_append_right (pre hay needle : String)
    (h : strContains hay needle) : strContains (pre ++ hay) needle := by
  rcases h with ⟨p, q, rfl⟩
  exact ⟨pre ++ p, q, by simp [String.append_assoc]⟩

theorem strContains_append_left (hay post needle : String)
    (h : strContains hay needle) : strContains (hay ++ post) needle := by
  rcases h with ⟨p, q, rfl⟩
  exact ⟨p, q ++ post, by simp [String.append_assoc]⟩

theorem strContains_of_initSegment (hay needle post : String)
    (h : strContains hay (needle ++ post)) : strContains hay needle := by
  rcases h with ⟨p, q, rfl⟩
  exact ⟨p, post ++ q, by simp [String.append_assoc]⟩

/-! ## ToolStore (`storer.ts`)

State of the `ToolStore` class.  `availableTools` and `toolServerInfo` are
JS `Map`s; `clientCache` is the LRU cache of MCP clients, of which we track
only the set of populated cache keys (the clients themselves are opaque
network handles). -/

/-- Models `ToolServerInfo` from `storer.ts`. -/
structure ToolServerInfo where
  serverUrl : String
  serverType : String
  authToken : Option String
deriving Repr, DecidableEq

/-- Models `ConnectionOptions` from `shared/connector/connector.ts` as consumed by
`ToolStore`. -/
structure ConnectionOptions where
  url : String
  type : String
  authToken : Option String
  appName : String
  appVersion : String
deriving Repr, DecidableEq

structure ToolStoreState where
  availableTools : List (String × MCPTool)
  toolServerInfo : List (String × ToolServerInfo)
  clientCache : List String
deriving Repr, DecidableEq

/-- Models `Conflict` record built inside `ToolStore.connectToServer`. -/
structure Conflict where
  toolName : String
  existingServer : String
  newServer : String
deriving Repr, DecidableEq

/-- One line of the compound conflict error:
`` `Tool "${c.toolName}" already exists from server "${c.existingServer}"` ``. -/
def conflictLine (c : Conflict) : String :=
  "Tool \"" ++ c.toolName ++ "\" already exists from server \""
    ++ c.existingServer ++ "\""

/-- The compound error message thrown by `connectToServer` on conflicts. -/
def conflictMessage (url : String) (conflicts : List Conflict) : String :=
  "Tool name conflicts detected when connecting to " ++ url ++ ":\n"
    ++ joinSep "\n" (conflicts.map conflictLine)
    ++ "\nTools must have unique names across all servers."

/-- Get-or-create of the pooled client in `connectToServer`: the client
itself is an opaque handle, so only the populated cache key is tracked.
This happens before the conflict check, so the cache is touched even on the
error path. -/
def cacheTouched (s : ToolStoreState) (cacheKey : String) : ToolStoreState :=
  if s.clientCache.contains cacheKey then s
  else { s with clientCache := s.clientCache ++ [cacheKey] }

/-- Models `toolsResult.tools.map((tool) => ({name, description, inputSchema}))`. -/
def projectTool (t : MCPTool) : MCPTool :=
  { name := t.name, description := t.description, inputSchema := t.inputSchema }

/-- The conflict collection loop of `connectToServer`: a tool conflicts when
its name is already in `toolServerInfo` and the recorded `serverUrl` differs
from the connecting server's url. -/
def conflictsOf (tsi : List (String × ToolServerInfo)) (url : String)
    (newTools : List MCPTool) : List Conflict :=
  newTools.filterMap fun t =>
    match mapGet tsi t.name with
    | some info =>
      if info.serverUrl ≠ url then some ⟨t.name, info.serverUrl, url⟩ else none
    | none => none

/-- Body of the registration loop of `connectToServer`: record server info
and the descriptor for one tool. -/
def registerOne (opts : ConnectionOptions) (st : ToolStoreState) (t : MCPTool) :
    ToolStoreState :=
  { st with
    toolServerInfo := mapSet st.toolServerInfo t.name
      ⟨opts.url, opts.type, opts.authToken⟩,
    availableTools := mapSet st.availableTools t.name t }

/-- Models `ToolStore.connectToServer(opts)`.  The tools advertised by the server
(the result of `client.listTools()`) are an input, since the server is an
external peer.  Returns the updated state together with either the list of
newly installed tools or the thrown error message. -/
def connectToServer (s : ToolStoreState) (opts : ConnectionOptions)
    (advertised : List MCPTool) :
    ToolStoreState × Except String (List MCPTool) :=
  let cacheKey := opts.url ++ "::" ++ opts.type
  let s1 := cacheTouched s cacheKey
  let newTools := advertised.map projectTool
  let conflicts := conflictsOf s1.toolServerInfo opts.url newTools
  if conflicts.isEmpty then
    (newTools.foldl (registerOne opts) s1, .ok newTools)
  else
    (s1, .error (conflictMessage opts.url conflicts))

theorem projectTool_eq_id : projectTool = id := funext fun _ => rfl

theorem cacheTouched_availableTools (s : ToolStoreState) (k : String) :
    (cacheTouched s k).availableTools = s.availableTools := by
  unfold cacheTouched; split <;> rfl

theorem cacheTouched_toolServerInfo (s : ToolStoreState) (k : String) :
    (cacheTouched s k).toolServerInfo = s.toolServerInfo := by
  unfold cacheTouched; split <;> rfl

theorem conflictsOf_eq_nil_iff (tsi : List (String × ToolServerInfo))
    (url : String) (ts : List MCPTool) :
    conflictsOf tsi url ts = [] ↔
      ∀ t ∈ ts, ∀ info, mapGet tsi t.name = some info → info.serverUrl = url := by
  rw [conflictsOf, List.filterMap_eq_nil_iff]
  constructor
  · intro h t ht info hinfo
    have := h t ht
    rw [hinfo] at this
    by_cases hne : info.serverUrl = url
    · exact hne
    · simp [hne] at this
  · intro h t ht
    cases hinfo : mapGet tsi t.name with
    | none => rfl
    | some info =>
      have := h t ht info hinfo
      simp [this]

theorem mem_conflictsOf (tsi : List (String × ToolServerInfo)) (url : String)
    (ts : List MCPTool) (t : MCPTool) (info : ToolServerInfo)
    (ht : t ∈ ts) (hinfo : mapGet tsi t.name = some info)
    (hne : info.serverUrl ≠ url) :
    (⟨t.name, info.serverUrl, url⟩ : Conflict) ∈ conflictsOf tsi url ts := by
  rw [conflictsOf]
  exact List.mem_filterMap.mpr ⟨t, ht, by rw [hinfo]; simp [hne]⟩

theorem foldl_registerOne_serverInfo_preserve (opts : ConnectionOptions)
    (ts : List MCPTool) :
    ∀ (st : ToolStoreState) (name : String),
      mapGet st.toolServerInfo name = some ⟨opts.url, opts.type, opts.authToken⟩ →
      mapGet (ts.foldl (registerOne opts) st).toolServerInfo name
        = some ⟨opts.url, opts.type, opts.authToken⟩ := by
  induction ts with
  | nil => intro st name h; simpa using h
  | cons a rest ih =>
    intro st name h
    rw [List.foldl_cons]
    apply ih
    by_cases ha : name = a.name
    · subst ha
      simp [registerOne, mapGet_mapSet_self]
    · simpa [registerOne, mapGet_mapSet_ne _ _ _ _ ha] using h

theorem foldl_registerOne_serverInfo_mem (opts : ConnectionOptions)
    (ts : List MCPTool) (t : MCPTool) (ht : t ∈ ts) :
    ∀ st : ToolStoreState,
      mapGet (ts.foldl (registerOne opts) st).toolServerInfo t.name
        = some ⟨opts.url, opts.type, opts.authToken⟩ := by
  induction ts with
  | nil => cases ht
  | cons a rest ih =>
    intro st
    rcases List.mem_cons.mp ht with rfl | hmem
    · rw [List.foldl_cons]
      apply foldl_registerOne_serverInfo_preserve
      simp [registerOne, mapGet_mapSet_self]
    · rw [List.foldl_cons]
      exact ih hmem _

theorem foldl_registerOne_avail_stable (opts : ConnectionOptions)
    (ts : List MCPTool) (name : String) (hni : ∀ t' ∈ ts, t'.name ≠ name) :
    ∀ st : ToolStoreState,
      mapGet (ts.foldl (registerOne opts) st).availableTools name
        = mapGet st.availableTools name := by
  induction ts with
  | nil => intro st; rfl
  | cons a rest ih =>
    intro st
    rw [List.foldl_cons]
    rw [ih (fun t' ht' => hni t' (List.mem_cons_of_mem a ht'))]
    have ha : name ≠ a.name := fun hc => hni a (List.mem_cons_self a rest) hc.symm
    simp [registerOne, mapGet_mapSet_ne _ _ _ _ ha]

theorem foldl_registerOne_avail_mem_nodup (opts : ConnectionOptions)
    (ts : List MCPTool) (hnd : (ts.map (fun t => t.name)).Nodup)
    (t : MCPTool) (ht : t ∈ ts) :
    ∀ st : ToolStoreState,
      mapGet (ts.foldl (registerOne opts) st).availableTools t.name = some t := by
  induction ts with
  | nil => cases ht
  | cons a rest ih =>
    intro st
    rw [List.map_cons, List.nodup_cons] at hnd
    rcases List.mem_cons.mp ht with rfl | hmem
    · rw [List.foldl_cons]
      rw [foldl_registerOne_avail_stable opts rest t.name
        (fun t' ht' hc => hnd.1 (hc ▸ List.mem_map_of_mem (fun x => x.name) ht'))]
      simp [registerOne, mapGet_mapSet_self]
    · rw [List.foldl_cons]
      exact ih hnd.2 hmem _

theorem foldl_registerOne_avail_has_preserve (opts : ConnectionOptions)
    (ts : List MCPTool) :
    ∀ (st : ToolStoreState) (name : String),
      mapHas st.availableTools name = true →
      mapHas (ts.foldl (registerOne opts) st).availableTools name = true := by
  induction ts with
  | nil => intro st name h; simpa using h
  | cons a rest ih =>
    intro st name h
    rw [List.foldl_cons]
    exact ih _ _ (mapHas_mapSet_of_mapHas _ _ _ _ h)

theorem foldl_registerOne_avail_has (opts : ConnectionOptions)
    (ts : List MCPTool) (t : MCPTool) (ht : t ∈ ts) :
    ∀ st : ToolStoreState,
      mapHas (ts.foldl (registerOne opts) st).availableTools t.name = true := by
  induction ts with
  | nil => cases ht
  | cons a rest ih =>
    intro st
    rcases List.mem_cons.mp ht with rfl | hmem
    · rw [List.foldl_cons]
      apply foldl_registerOne_avail_has_preserve
      simp [mapHas, registerOne, mapGet_mapSet_self]
    · rw [List.foldl_cons]
      exact ih hmem _

theorem connectToServer_unfold (s : ToolStoreState) (opts : ConnectionOptions)
    (advertised : List MCPTool) :
    connectToServer s opts advertised =
      (if (conflictsOf
            (cacheTouched s (opts.url ++ "::" ++ opts.type)).toolServerInfo
            opts.url advertised).isEmpty then
        (advertised.foldl (registerOne opts)
          (cacheTouched s (opts.url ++ "::" ++ opts.type)), Except.ok advertised)
      else
        (cacheTouched s (opts.url ++ "::" ++ opts.type),
          Except.error (conflictMessage opts.url
            (conflictsOf
              (cacheTouched s (opts.url ++ "::" ++ opts.type)).toolServerInfo
              opts.url advertised)))) := by
  simp only [connectToServer, projectTool_eq_id, List.map_id]

theorem conflictLine_split (c : Conflict) :
    conflictLine c =
      ("Tool \"" ++ c.toolName ++ "\"")
        ++ (" already exists from server \"" ++ c.existingServer ++ "\"") := by
  have h : ("\" already exists from server \"" : String)
      = "\"" ++ " already exists from server \"" := rfl
  rw [conflictLine]
  simp only [String.append_assoc, h]

theorem strContains_conflictMessage (url : String) (conflicts : List Conflict)
    (c : Conflict) (hc : c ∈ conflicts) :
    strContains (conflictMessage url conflicts) ("Tool \"" ++ c.toolName ++ "\"") := by
  have h1 : strContains (joinSep "\n" (conflicts.map conflictLine)) (conflictLine c) :=
    strContains_of_mem_joinSep _ _ _ (List.mem_map_of_mem conflictLine hc)
  rw [conflictLine_split] at h1
  have h2 := strContains_of_initSegment _ _ _ h1
  rw [conflictMessage]
  exact strContains_append_left _ _ _ (strContains_append_right _ _ _ h2)

/-- C1: on `connectToServer`, if any advertised tool name is already
registered from a different server URL, the call fails with a single
compound error that names every conflicting tool and leaves both the tool
set and the name-to-server map unchanged; if every advertised name is fresh
or already bound to the same server URL, the call succeeds and installs all
advertised tools (re-registering from the same server is not an error). -/
theorem connectToServer_conflict_atomicity (s : ToolStoreState)
    (opts : ConnectionOptions) (advertised : List MCPTool) :
    ((∃ t ∈ advertised, ∃ info, mapGet s.toolServerInfo t.name = some info ∧
        info.serverUrl ≠ opts.url) →
      (connectToServer s opts advertised).1.availableTools = s.availableTools ∧
      (connectToServer s opts advertised).1.toolServerInfo = s.toolServerInfo ∧
      ∃ msg, (connectToServer s opts advertised).2 = .error msg ∧
        ∀ t ∈ advertised, ∀ info, mapGet s.toolServerInfo t.name = some info →
          info.serverUrl ≠ opts.url →
          strContains msg ("Tool \"" ++ t.name ++ "\""))
    ∧ ((∀ t ∈ advertised, ∀ info, mapGet s.toolServerInfo t.name = some info →
          info.serverUrl = opts.url) →
      (connectToServer s opts advertised).2 = .ok advertised ∧
      (∀ t ∈ advertised,
        mapGet (connectToServer s opts advertised).1.toolServerInfo t.name
          = some ⟨opts.url, opts.type, opts.authToken⟩ ∧
        mapHas (connectToServer s opts advertised).1.availableTools t.name = true) ∧
      ((advertised.map (fun t => t.name)).Nodup →
        ∀ t ∈ advertised,
          mapGet (connectToServer s opts advertised).1.availableTools t.name
            = some t)) := by
  rw [connectToServer_unfold]
  rw [cacheTouched_toolServerInfo]
  constructor
  · rintro ⟨t, ht, info, hinfo, hne⟩
    have hmem := mem_conflictsOf s.toolServerInfo opts.url advertised t info ht hinfo hne
    have hnil : conflictsOf s.toolServerInfo opts.url advertised ≠ [] := by
      intro hc
      rw [hc] at hmem
      cases hmem
    have hempty : (conflictsOf s.toolServerInfo opts.url advertised).isEmpty = false := by
      cases hc : conflictsOf s.toolServerInfo opts.url advertised with
      | nil => exact absurd hc hnil
      | cons a l => rfl
    rw [hempty]
    simp only [Bool.false_eq_true, if_false]
    refine ⟨cacheTouched_availableTools s _, cacheTouched_toolServerInfo s _, ?_⟩
    refine ⟨_, rfl, ?_⟩
    intro t' ht' info' hinfo' hne'
    exact strContains_conflictMessage opts.url _ _
      (mem_conflictsOf s.toolServerInfo opts.url advertised t' info' ht' hinfo' hne')
  · intro hclean
    have hnil : conflictsOf s.toolServerInfo opts.url advertised = [] :=
      (conflictsOf_eq_nil_iff _ _ _).mpr hclean
    rw [hnil]
    simp only [List.isEmpty_nil, if_true]
    refine ⟨by trivial, ?_, ?_⟩
    · intro t ht
      exact ⟨foldl_registerOne_serverInfo_mem opts advertised t ht _,
        foldl_registerOne_avail_has opts advertised t ht _⟩
    · intro hnd t ht
      exact foldl_registerOne_avail_mem_nodup opts advertised hnd t ht _

def wTool : MCPTool := ⟨"search", none, "\x7b\x7d"⟩

def wInfo : ToolServerInfo := ⟨"http://a", "sse", none⟩

def wStore : ToolStoreState := ⟨[("search", wTool)], [("search", wInfo)], []⟩

def wOpts : ConnectionOptions := ⟨"http://b", "sse", none, "ant", "1.0.0"⟩

def emptyStore : ToolStoreState := ⟨[], [], []⟩

theorem connectToServer_conflict_atomicity_witness :
    (connectToServer wStore wOpts [wTool]).1.availableTools = wStore.availableTools ∧
    (connectToServer wStore wOpts [wTool]).1.toolServerInfo = wStore.toolServerInfo ∧
    (connectToServer emptyStore wOpts [wTool]).2 = .ok [wTool] ∧
    mapGet (connectToServer emptyStore wOpts [wTool]).1.toolServerInfo wTool.name
      = some ⟨wOpts.url, wOpts.type, wOpts.authToken⟩ ∧
    mapGet (connectToServer emptyStore wOpts [wTool]).1.availableTools wTool.name
      = some wTool :=
  ⟨((connectToServer_conflict_atomicity wStore wOpts [wTool]).1
      ⟨wTool, List.mem_singleton_self wTool, wInfo, by decide, by decide⟩).1,
   ((connectToServer_conflict_atomicity wStore wOpts [wTool]).1
      ⟨wTool, List.mem_singleton_self wTool, wInfo, by decide, by decide⟩).2.1,
   ((connectToServer_conflict_atomicity emptyStore wOpts [wTool]).2
      (by intro t ht info hinfo; simp [emptyStore, mapGet] at hinfo)).1,
   (((connectToServer_conflict_atomicity emptyStore wOpts [wTool]).2
      (by intro t ht info hinfo; simp [emptyStore, mapGet] at hinfo)).2.1
      wTool (List.mem_singleton_self wTool)).1,
   ((connectToServer_conflict_atomicity emptyStore wOpts [wTool]).2
      (by intro t ht info hinfo; simp [emptyStore, mapGet] at hinfo)).2.2
      (by decide) wTool (List.mem_singleton_self wTool)⟩

/-! ## Text hygiene (`TextBlock.sanitizeText` / `cleanTextContent` in
`messages.ts`)

Every `TextBlock` construction funnels its text through `sanitizeText`.
`cleanTextContent` returns short, simple text unchanged; longer or
suspicious text goes through a pipeline of regex rewrites, modelled below
as left-to-right scan-and-rewrite passes over the character list (the JS
`String.prototype.replace(/…/g, …)` semantics: non-overlapping matches,
scanning from the left). -/

/-- The JS `\s` class (ASCII part; the Unicode space code points are not
distinguished by anything modelled here). -/
def isJsWhitespace (c : Char) : Bool :=
  c == ' ' || c == '\t' || c == '\n' || c == '\r' || c == '\x0b' || c == '\x0c'

def skipWs (cs : List Char) : List Char := cs.dropWhile isJsWhitespace

/-- Case-sensitive literal prefix match; returns the remainder. -/
def dropPrefixExact : List Char → List Char → Option (List Char)
  | [], cs => some cs
  | _ :: _, [] => none
  | p :: ps, c :: cs => if c = p then dropPrefixExact ps cs else none

/-- Case-insensitive literal prefix match; returns the remainder. -/
def dropPrefixCI : List Char → List Char → Option (List Char)
  | [], cs => some cs
  | _ :: _, [] => none
  | p :: ps, c :: cs => if c.toLower = p.toLower then dropPrefixCI ps cs else none

/-- Split at the first occurrence of a (case-sensitive) literal pattern:
returns the text before the pattern and the remainder after it. -/
def findSplit (pat : List Char) : List Char → Option (List Char × List Char)
  | [] => match dropPrefixExact pat [] with
    | some rem => some ([], rem)
    | none => none
  | c :: rest =>
    match dropPrefixExact pat (c :: rest) with
    | some rem => some ([], rem)
    | none =>
      match findSplit pat rest with
      | some (pre, post) => some (c :: pre, post)
      | none => none

/-- Models `findSplit`, but case-insensitive (for the `/gi` closing-tag search). -/
def findSplitCI (pat : List Char) : List Char → Option (List Char × List Char)
  | [] => match dropPrefixCI pat [] with
    | some rem => some ([], rem)
    | none => none
  | c :: rest =>
    match dropPrefixCI pat (c :: rest) with
    | some rem => some ([], rem)
    | none =>
      match findSplitCI pat rest with
      | some (pre, post) => some (c :: pre, post)
      | none => none

/-- Models `findSplit` restricted to matches on the current line (used for the
`.*?` patterns, where `.` does not match a newline). -/
def findSplitNoNl (pat : List Char) : List Char → Option (List Char × List Char)
  | [] => match dropPrefixExact pat [] with
    | some rem => some ([], rem)
    | none => none
  | c :: rest =>
    match dropPrefixExact pat (c :: rest) with
    | some rem => some ([], rem)
    | none =>
      if c = '\n' then none
      else
        match findSplitNoNl pat rest with
        | some (pre, post) => some (c :: pre, post)
        | none => none

/-- One generic scan-and-rewrite pass: `step` inspects the head of the
remaining text and either rewrites a match (returning the emitted
replacement and the remainder after the match) or declines.  Fueled by the
input length; every accepted match consumes at least one character. -/
def scanRewriteAux (step : List Char → Option (List Char × List Char)) :
    Nat → List Char → List Char
  | 0, cs => cs
  | _ + 1, [] => []
  | fuel + 1, c :: rest =>
    match step (c :: rest) with
    | some (out, rem) =>
      if rem.length < rest.length + 1 then out ++ scanRewriteAux step fuel rem
      else c :: scanRewriteAux step fuel rest
    | none => c :: scanRewriteAux step fuel rest

def scanRewrite (step : List Char → Option (List Char × List Char))
    (cs : List Char) : List Char :=
  scanRewriteAux step cs.length cs

/-- Models `text.replace(/\\\\+/g, "\\")`: collapse runs of two or more
backslashes. -/
def stepBackslashRun (cs : List Char) : Option (List Char × List Char) :=
  match cs with
  | '\\' :: '\\' :: rest =>
    some (['\\'], rest.dropWhile (fun c => c = '\\'))
  | _ => none

/-- The tag alternation of the HTML-tag regex, in source order
(`div|span|p|br|table|tr|td|th|b|i|strong|em|a|ul|ol|li|h\d`). -/
def tagNameList : List String :=
  ["div", "span", "p", "br", "table", "tr", "td", "th", "b", "i",
   "strong", "em", "a", "ul", "ol", "li"]

def matchTagAlternation (cs : List Char) : Option (List Char) :=
  match tagNameList.findSome? (fun n => dropPrefixCI n.toList cs) with
  | some rem => some rem
  | none =>
    match cs with
    | c :: d :: rest =>
      if c.toLower = 'h' ∧ d.isDigit then some rest else none
    | _ => none

/-- Models `[^>]*>`: skip to just past the next `>`. -/
def skipPastGt : List Char → Option (List Char)
  | [] => none
  | c :: rest => if c = '>' then some rest else skipPastGt rest

/-- Models `text.replace(/<\/?(?:div|…|h\d)[^>]*>/gi, " ")`. -/
def stepHtmlTag (cs : List Char) : Option (List Char × List Char) :=
  match cs with
  | '<' :: rest =>
    let afterSlash := match rest with
      | '/' :: r => r
      | _ => rest
    match matchTagAlternation afterSlash with
    | some rem =>
      match skipPastGt rem with
      | some rem' => some ([' '], rem')
      | none => none
    | none => none
  | _ => none

/-- Models `text.replace(/<(script|style)[^>]*>[\s\S]*?<\/\1>/gi, "")`. -/
def stepScriptStyle (cs : List Char) : Option (List Char × List Char) :=
  match cs with
  | '<' :: rest =>
    let tryTag := fun (name : String) =>
      match dropPrefixCI name.toList rest with
      | some rem =>
        match skipPastGt rem with
        | some body =>
          match findSplitCI ("</" ++ name ++ ">").toList body with
          | some (_, after) => some (([] : List Char), after)
          | none => none
        | none => none
      | none => none
    (tryTag "script").orElse (fun _ => tryTag "style")
  | _ => none

/-- Models `text.replace(/<!--[\s\S]*?-->/g, "")`. -/
def stepComment (cs : List Char) : Option (List Char × List Char) :=
  match dropPrefixExact "<!--".toList cs with
  | some rest =>
    match findSplit "-->".toList rest with
    | some (_, after) => some ([], after)
    | none => none
  | none => none

/-- Models `text.replace(/(&zwnj;|&nbsp;|&#8203;|&#847;|&#160;)/g, " ")`. -/
def stepInvisibleEntity (cs : List Char) : Option (List Char × List Char) :=
  match ["&zwnj;", "&nbsp;", "&#8203;", "&#847;", "&#160;"].findSome?
      (fun e => dropPrefixExact e.toList cs) with
  | some rem => some ([' '], rem)
  | none => none

/-- Models `text.replace(/\s{2,}/g, " ")`. -/
def stepWsRun (cs : List Char) : Option (List Char × List Char) :=
  match cs with
  | c :: d :: rest =>
    if isJsWhitespace c && isJsWhitespace d then
      some ([' '], (d :: rest).dropWhile isJsWhitespace)
    else none
  | _ => none

/-- Models `text.replace(/\n{3,}/g, "\n\n")`. -/
def stepNlRun (cs : List Char) : Option (List Char × List Char) :=
  match cs with
  | '\n' :: '\n' :: '\n' :: rest =>
    some (['\n', '\n'], rest.dropWhile (fun c => c = '\n'))
  | _ => none

/-- Models `text.replace(/\[\[.*?\]\]/g, "")`. -/
def stepDoubleSquare (cs : List Char) : Option (List Char × List Char) :=
  match cs with
  | '[' :: '[' :: rest =>
    match findSplitNoNl "]]".toList rest with
    | some (_, after) => some ([], after)
    | none => none
  | _ => none

/-- Models `text.replace(/\{\{.*?\}\}/g, "")`. -/
def stepDoubleCurly (cs : List Char) : Option (List Char × List Char) :=
  match cs with
  | '\x7b' :: '\x7b' :: rest =>
    match findSplitNoNl ['\x7d', '\x7d'] rest with
    | some (_, after) => some ([], after)
    | none => none
  | _ => none

/-- The verbose-JSON cleanup:
`text.replace(/"content":\s*\[\s*\{\s*"type":\s*"text",\s*"text":\s*("[^"]*"|\{[^\}]*\})/g, cb)`
where the callback keeps just the captured text (quoted strings lose their
quotes, brace groups are kept whole). -/
def stepJsonContent (cs : List Char) : Option (List Char × List Char) :=
  match dropPrefixExact "\"content\":".toList cs with
  | none => none
  | some r1 =>
    match skipWs r1 with
    | '[' :: r2 =>
      match skipWs r2 with
      | '\x7b' :: r3 =>
        match dropPrefixExact "\"type\":".toList (skipWs r3) with
        | none => none
        | some r4 =>
          match dropPrefixExact "\"text\",".toList (skipWs r4) with
          | none => none
          | some r5 =>
            match dropPrefixExact "\"text\":".toList (skipWs r5) with
            | none => none
            | some r6 =>
              match skipWs r6 with
              | '"' :: r7 =>
                let captured := r7.takeWhile (fun c => c ≠ '"')
                match r7.dropWhile (fun c => c ≠ '"') with
                | '"' :: r8 => some (captured, r8)
                | _ => none
              | '\x7b' :: r7 =>
                let captured := r7.takeWhile (fun c => c ≠ '\x7d')
                match r7.dropWhile (fun c => c ≠ '\x7d') with
                | '\x7d' :: r8 => some ('\x7b' :: (captured ++ ['\x7d']), r8)
                | _ => none
              | _ => none
      | _ => none
    | _ => none

/-- Models `text.replace(/",\s*"/g, " ")`. -/
def stepQuoteCommaQuote (cs : List Char) : Option (List Char × List Char) :=
  match cs with
  | '"' :: ',' :: rest =>
    match skipWs rest with
    | '"' :: rem => some ([' '], rem)
    | _ => none
  | _ => none

/-- Models `text.replace(/"\s*}/g, "")`. -/
def stepQuoteCloseBrace (cs : List Char) : Option (List Char × List Char) :=
  match cs with
  | '"' :: rest =>
    match skipWs rest with
    | '\x7d' :: rem => some ([], rem)
    | _ => none
  | _ => none

/-- Models `text.replace(/{\s*"/g, "")`. -/
def stepOpenBraceQuote (cs : List Char) : Option (List Char × List Char) :=
  match cs with
  | '\x7b' :: rest =>
    match skipWs rest with
    | '"' :: rem => some ([], rem)
    | _ => none
  | _ => none

/-- Models `text.replace(/\\"/g, '"')`. -/
def stepEscapedQuote (cs : List Char) : Option (List Char × List Char) :=
  match cs with
  | '\\' :: '"' :: rest => some (['"'], rest)
  | _ => none

def hexDigitVal (c : Char) : Option Nat :=
  if c.isDigit then some (c.toNat - '0'.toNat)
  else if 'a' ≤ c ∧ c ≤ 'f' then some (c.toNat - 'a'.toNat + 10)
  else if 'A' ≤ c ∧ c ≤ 'F' then some (c.toNat - 'A'.toNat + 10)
  else none

/-- Models `text.replace(/\\u([0-9a-fA-F]{4})/g, fromCharCode)` (a code unit in the
surrogate range would be an invalid lone surrogate in JS as well; `Char.ofNat`
maps it to the null character). -/
def stepUnicodeEscape (cs : List Char) : Option (List Char × List Char) :=
  match cs with
  | '\\' :: 'u' :: a :: b :: c :: d :: rest =>
    match hexDigitVal a, hexDigitVal b, hexDigitVal c, hexDigitVal d with
    | some va, some vb, some vc, some vd =>
      some ([Char.ofNat (((va * 16 + vb) * 16 + vc) * 16 + vd)], rest)
    | _, _, _, _ => none
  | _ => none

/-- Models `TextBlock.cleanTextContent`: short simple text is returned unchanged;
otherwise the full rewrite pipeline runs, in source order, ending with
`trim()`. -/
def cleanTextContent (text : String) : String :=
  if text.length < 100 && !(text.toList.contains '<') && !(text.toList.contains '\\') then
    text
  else
    let cs := text.toList
    let cs := scanRewrite stepBackslashRun cs
    let cs := scanRewrite stepHtmlTag cs
    let cs := scanRewrite stepScriptStyle cs
    let cs := scanRewrite stepComment cs
    let cs := scanRewrite stepInvisibleEntity cs
    let s := String.mk cs
    let s := s.replace "&amp;" "&"
    let s := s.replace "&lt;" "<"
    let s := s.replace "&gt;" ">"
    let s := s.replace "&quot;" "\""
    let s := s.replace "&#39;" "'"
    let cs := s.toList
    let cs := scanRewrite stepWsRun cs
    let cs := scanRewrite stepNlRun cs
    let cs := scanRewrite stepDoubleSquare cs
    let cs := scanRewrite stepDoubleCurly cs
    let cs := scanRewrite stepJsonContent cs
    let cs := scanRewrite stepQuoteCommaQuote cs
    let cs := scanRewrite stepQuoteCloseBrace cs
    let cs := scanRewrite stepOpenBraceQuote cs
    let s := String.mk cs
    let s := s.replace "\\\"" "\""
    let cs := scanRewrite stepUnicodeEscape s.toList
    (String.mk cs).trim

/-- Models `TextBlock.sanitizeText`: every call site modelled here already passes a
string (the one non-string call site, the upstream tool result object in
`executeTool`, reaches the model pre-stringified), so the
`JSON.stringify` coercion is a no-op here. -/
def sanitizeText (text : String) : String := cleanTextContent text

theorem sanitizeText_short (text : String)
    (h : text.length < 100 ∧ text.toList.contains '<' = false
      ∧ text.toList.contains '\\' = false) :
    sanitizeText text = text := by
  rw [sanitizeText, cleanTextContent]
  rw [if_pos]
  simp only [Bool.and_eq_true, Bool.not_eq_true', decide_eq_true_eq]
  exact ⟨⟨h.1, h.2.1⟩, h.2.2⟩

/-! ## Content blocks (`messages.ts`) -/

inductive MessageRole where
  | system
  | user
  | assistant
deriving Repr, DecidableEq

/-- Models `TextBlock` (its `text` field, post-sanitization, and `userFacing`;
the `metadata` record carries opaque vendor fields and is dropped). -/
structure TextB where
  text : String
  userFacing : Bool
deriving Repr, DecidableEq

/-- Models `new TextBlock(text, userFacing)`: the constructor sanitizes. -/
def mkTextBlock (text : String) (userFacing : Bool) : TextB :=
  ⟨sanitizeText text, userFacing⟩

/-- Models `ToolResultBlock`. -/
structure ToolResultB where
  toolUseId : String
  content : List TextB
  userFacing : Bool
  isError : Bool
deriving Repr, DecidableEq

inductive ContentBlock where
  | text (b : TextB)
  | toolUse (id name : String) (args : Option Args) (userFacing : Bool)
  | toolResult (b : ToolResultB)
  | thinking (signature thinking : String)
  | userInput (request : String)
  | finalResponse (response : String)
  | exception (message : String)
deriving Repr, DecidableEq

structure Message where
  role : MessageRole
  content : List ContentBlock
deriving Repr, DecidableEq

/-! ## Oracles for external collaborators of the ToolStore

The `RegistryClient` instance held by the `ToolStore` answers the five
meta-tool calls over the network; `Connector.connect` and
`client.callTool` reach upstream MCP servers.  Their responses are inputs
of the model.  An `Except.error` response models a thrown exception. -/

/-- Models `WithRawResult<T>` from `registryClient.ts`. -/
structure WithRaw (α : Type) where
  result : α
  rawResult : String
deriving Repr, DecidableEq

/-- Responses of the `RegistryClient` as seen by the `ToolStore`:
`registryTools` is the client's cached tool list (`rc.registryTools`, whose
name set is `rc.Tools()`), and each field gives the response to the
corresponding meta-call.  Only `queryTools`'s structured result is consumed
by the `ToolStore`; the other branches use only `rawResult`. -/
structure RCOracle where
  registryTools : List MCPTool
  queryToolsResp : Option Args → Except String (WithRaw (List ToolWithServerInfo))
  listToolsResp : Option Args → Except String String
  addToolResp : Option Args → Except String String
  addServerResp : Option Args → Except String String
  deleteToolResp : Option Args → Except String String

/-- Models `rc.Tools()`: the set of registry tool names, as a list. -/
def RCOracle.toolNames (rc : RCOracle) : List String :=
  rc.registryTools.map (fun t => t.name)

/-- An upstream `client.callTool` result: the result object itself is
opaque (it is stringified into the `TextBlock`), so only its
stringification and `isError` flag are kept.  `none` models the
`result === undefined` check. -/
structure CallToolResult where
  contentJson : String
  isError : Bool
deriving Repr, DecidableEq

/-- Upstream network oracle: `connect` keyed by cache key, `callTool` keyed
by cache key and tool name. -/
structure Upstream where
  connect : String → Except String Unit
  callTool : String → String → Option Args → Except String (Option CallToolResult)

/-- Observable side effects of one `executeTool` call, in order. -/
inductive Event where
  | rcCall (toolName : String)
  | connect (cacheKey : String)
  | upstreamCall (cacheKey toolName : String)
deriving Repr, DecidableEq

/-- Models `ToolUseBlock` payload as consumed by `executeTool`. -/
structure ToolUseB where
  id : String
  name : String
  args : Option Args
deriving Repr, DecidableEq

/-- Body of the `registerTools` loop: record the descriptor in
`availableTools` and the origin in `toolServerInfo`. -/
def registerToolsStep (st : ToolStoreState) (tws : ToolWithServerInfo) :
    ToolStoreState :=
  { st with
    availableTools := mapSet st.availableTools tws.tool.name tws.tool,
    toolServerInfo := mapSet st.toolServerInfo tws.tool.name
      ⟨tws.server.url, tws.server.type, tws.server.authToken⟩ }

/-- Models `ToolStore.registerTools(toolsWithServerInfo)`: records each descriptor
in `availableTools` and its origin in `toolServerInfo`; no connection is
opened.  Returns the updated state and the `newTools` list. -/
def registerTools (st : ToolStoreState) (origins : List ToolWithServerInfo) :
    ToolStoreState × List MCPTool :=
  origins.foldl
    (fun acc tws => (registerToolsStep acc.1 tws, acc.2 ++ [tws.tool]))
    (st, [])

/-- Models `ToolStore.getAvailableTools()`. -/
def getAvailableTools (st : ToolStoreState) (rc : RCOracle) : List MCPTool :=
  st.availableTools.map (fun p => p.2) ++ rc.registryTools

/-- Models `ToolStore.ensureClientConnection` + the upstream call + result
wrapping: the `else` branch of `executeTool`. -/
def executeUpstream (st : ToolStoreState) (up : Upstream) (block : ToolUseB) :
    ToolStoreState × List Event × Except String ToolResultB :=
  match mapGet st.toolServerInfo block.name with
  | none => (st, [], .error ("No server information for tool: " ++ block.name))
  | some serverInfo =>
    let cacheKey := serverInfo.serverUrl ++ "::" ++ serverInfo.serverType
    if st.clientCache.contains cacheKey then
      match up.callTool cacheKey block.name block.args with
      | .error e => (st, [.upstreamCall cacheKey block.name], .error e)
      | .ok none => (st, [.upstreamCall cacheKey block.name],
          .error ("Client failed to handle tool " ++ block.name))
      | .ok (some result) =>
        (st, [.upstreamCall cacheKey block.name],
          .ok ⟨block.id, [mkTextBlock result.contentJson false], false, result.isError⟩)
    else
      match up.connect cacheKey with
      | .error e => (st, [.connect cacheKey], .error e)
      | .ok _ =>
        let st := { st with clientCache := st.clientCache ++ [cacheKey] }
        match up.callTool cacheKey block.name block.args with
        | .error e => (st, [.connect cacheKey, .upstreamCall cacheKey block.name], .error e)
        | .ok none => (st, [.connect cacheKey, .upstreamCall cacheKey block.name],
            .error ("Client failed to handle tool " ++ block.name))
        | .ok (some result) =>
          (st, [.connect cacheKey, .upstreamCall cacheKey block.name],
            .ok ⟨block.id, [mkTextBlock result.contentJson false], false, result.isError⟩)

/-- Models `ToolStore.executeTool(block)`: registry meta-tools are dispatched to
the Registry Client when the name is in `rc.Tools()`; anything else goes
through lazy connection to its recorded upstream server.  Thrown errors are
re-thrown by both catch blocks, so they surface as `Except.error`. -/
def executeTool (st : ToolStoreState) (rc : RCOracle) (up : Upstream)
    (block : ToolUseB) :
    ToolStoreState × List Event × Except String ToolResultB :=
  if rc.toolNames.contains block.name then
    if block.name = "query-tools" then
      match rc.queryToolsResp block.args with
      | .error e => (st, [.rcCall "query-tools"], .error e)
      | .ok result =>
        let st := (registerTools st result.result).1
        let toolNames := joinSep ", " (result.result.map (fun tws => tws.tool.name))
        (st, [.rcCall "query-tools"],
          .ok ⟨block.id,
            [mkTextBlock ("successfully queried and added " ++ toolNames) false],
            false, false⟩)
    else if block.name = "list-tools" then
      match rc.listToolsResp block.args with
      | .error e => (st, [.rcCall "list-tools"], .error e)
      | .ok raw => (st, [.rcCall "list-tools"],
          .ok ⟨block.id, [mkTextBlock raw false], false, false⟩)
    else if block.name = "add-tool" then
      match rc.addToolResp block.args with
      | .error e => (st, [.rcCall "add-tool"], .error e)
      | .ok raw => (st, [.rcCall "add-tool"],
          .ok ⟨block.id, [mkTextBlock raw false], false, false⟩)
    else if block.name = "add-server" then
      match rc.addServerResp block.args with
      | .error e => (st, [.rcCall "add-server"], .error e)
      | .ok raw => (st, [.rcCall "add-server"],
          .ok ⟨block.id, [mkTextBlock raw false], false, false⟩)
    else if block.name = "delete-tool" then
      match rc.deleteToolResp block.args with
      | .error e => (st, [.rcCall "delete-tool"], .error e)
      | .ok raw => (st, [.rcCall "delete-tool"],
          .ok ⟨block.id, [mkTextBlock raw false], false, false⟩)
    else
      (st, [], .error ("Unsupported registry tool " ++ block.name))
  else
    executeUpstream st up block

theorem registerTools_fst (origins : List ToolWithServerInfo) :
    ∀ (st : ToolStoreState) (l : List MCPTool),
      (origins.foldl
        (fun acc tws => (registerToolsStep acc.1 tws, acc.2 ++ [tws.tool]))
        (st, l)).1
        = origins.foldl registerToolsStep st := by
  induction origins with
  | nil => intro st l; rfl
  | cons o rest ih => intro st l; rw [List.foldl_cons, List.foldl_cons]; exact ih _ _

theorem rtFold_avail_stable (origins : List ToolWithServerInfo) (name : String)
    (hni : ∀ o ∈ origins, o.tool.name ≠ name) :
    ∀ st : ToolStoreState,
      mapGet (origins.foldl registerToolsStep st).availableTools name
        = mapGet st.availableTools name := by
  induction origins with
  | nil => intro st; rfl
  | cons o rest ih =>
    intro st
    rw [List.foldl_cons, ih (fun o' ho' => hni o' (List.mem_cons_of_mem o ho'))]
    have ho : name ≠ o.tool.name :=
      fun hc => hni o (List.mem_cons_self o rest) hc.symm
    simp [registerToolsStep, mapGet_mapSet_ne _ _ _ _ ho]

theorem rtFold_serverInfo_stable (origins : List ToolWithServerInfo) (name : String)
    (hni : ∀ o ∈ origins, o.tool.name ≠ name) :
    ∀ st : ToolStoreState,
      mapGet (origins.foldl registerToolsStep st).toolServerInfo name
        = mapGet st.toolServerInfo name := by
  induction origins with
  | nil => intro st; rfl
  | cons o rest ih =>
    intro st
    rw [List.foldl_cons, ih (fun o' ho' => hni o' (List.mem_cons_of_mem o ho'))]
    have ho : name ≠ o.tool.name :=
      fun hc => hni o (List.mem_cons_self o rest) hc.symm
    simp [registerToolsStep, mapGet_mapSet_ne _ _ _ _ ho]

theorem rtFold_avail_mem_nodup (origins : List ToolWithServerInfo)
    (hnd : (origins.map (fun o => o.tool.name)).Nodup)
    (o : ToolWithServerInfo) (ho : o ∈ origins) :
    ∀ st : ToolStoreState,
      mapGet (origins.foldl registerToolsStep st).availableTools o.tool.name
        = some o.tool := by
  induction origins with
  | nil => cases ho
  | cons a rest ih =>
    intro st
    rw [List.map_cons, List.nodup_cons] at hnd
    rcases List.mem_cons.mp ho with rfl | hmem
    · rw [List.foldl_cons]
      rw [rtFold_avail_stable rest o.tool.name
        (fun o' ho' hc => hnd.1 (hc ▸ List.mem_map_of_mem (fun x => x.tool.name) ho'))]
      simp [registerToolsStep, mapGet_mapSet_self]
    · rw [List.foldl_cons]
      exact ih hnd.2 hmem _

theorem rtFold_serverInfo_mem_nodup (origins : List ToolWithServerInfo)
    (hnd : (origins.map (fun o => o.tool.name)).Nodup)
    (o : ToolWithServerInfo) (ho : o ∈ origins) :
    ∀ st : ToolStoreState,
      mapGet (origins.foldl registerToolsStep st).toolServerInfo o.tool.name
        = some ⟨o.server.url, o.server.type, o.server.authToken⟩ := by
  induction origins with
  | nil => cases ho
  | cons a rest ih =>
    intro st
    rw [List.map_cons, List.nodup_cons] at hnd
    rcases List.mem_cons.mp ho with rfl | hmem
    · rw [List.foldl_cons]
      rw [rtFold_serverInfo_stable rest o.tool.name
        (fun o' ho' hc => hnd.1 (hc ▸ List.mem_map_of_mem (fun x => x.tool.name) ho'))]
      simp [registerToolsStep, mapGet_mapSet_self]
    · rw [List.foldl_cons]
      exact ih hnd.2 hmem _

theorem rtFold_avail_has_preserve (origins : List ToolWithServerInfo) :
    ∀ (st : ToolStoreState) (name : String),
      mapHas st.availableTools name = true →
      mapHas (origins.foldl registerToolsStep st).availableTools name = true := by
  induction origins with
  | nil => intro st name h; simpa using h
  | cons o rest ih =>
    intro st name h
    rw [List.foldl_cons]
    exact ih _ _ (mapHas_mapSet_of_mapHas _ _ _ _ h)

theorem rtFold_serverInfo_has_preserve (origins : List ToolWithServerInfo) :
    ∀ (st : ToolStoreState) (name : String),
      mapHas st.toolServerInfo name = true →
      mapHas (origins.foldl registerToolsStep st).toolServerInfo name = true := by
  induction origins with
  | nil => intro st name h; simpa using h
  | cons o rest ih =>
    intro st name h
    rw [List.foldl_cons]
    exact ih _ _ (mapHas_mapSet_of_mapHas _ _ _ _ h)

theorem rtFold_avail_has (origins : List ToolWithServerInfo)
    (o : ToolWithServerInfo) (ho : o ∈ origins) :
    ∀ st : ToolStoreState,
      mapHas (origins.foldl registerToolsStep st).availableTools o.tool.name
        = true := by
  induction origins with
  | nil => cases ho
  | cons a rest ih =>
    intro st
    rcases List.mem_cons.mp ho with rfl | hmem
    · rw [List.foldl_cons]
      apply rtFold_avail_has_preserve
      simp [mapHas, registerToolsStep, mapGet_mapSet_self]
    · rw [List.foldl_cons]
      exact ih hmem _

theorem rtFold_serverInfo_has (origins : List ToolWithServerInfo)
    (o : ToolWithServerInfo) (ho : o ∈ origins) :
    ∀ st : ToolStoreState,
      mapHas (origins.foldl registerToolsStep st).toolServerInfo o.tool.name
        = true := by
  induction origins with
  | nil => cases ho
  | cons a rest ih =>
    intro st
    rcases List.mem_cons.mp ho with rfl | hmem
    · rw [List.foldl_cons]
      apply rtFold_serverInfo_has_preserve
      simp [mapHas, registerToolsStep, mapGet_mapSet_self]
    · rw [List.foldl_cons]
      exact ih hmem _

/-- The five meta-tool names handled by `executeTool`'s registry branch. -/
def handledRegistryNames : List String :=
  ["query-tools", "list-tools", "add-tool", "add-server", "delete-tool"]

theorem executeTool_registry_trace (st : ToolStoreState) (rc : RCOracle)
    (up : Upstream) (block : ToolUseB)
    (h : rc.toolNames.contains block.name = true) :
    (executeTool st rc up block).2.1 = []
      ∨ (executeTool st rc up block).2.1 = [Event.rcCall block.name] := by
  rw [executeTool, if_pos h]
  by_cases h1 : block.name = "query-tools"
  · rw [if_pos h1]
    cases hq : rc.queryToolsResp block.args with
    | error e => right; rw [h1]
    | ok r => right; rw [h1]
  rw [if_neg h1]
  by_cases h2 : block.name = "list-tools"
  · rw [if_pos h2]
    cases hq : rc.listToolsResp block.args with
    | error e => right; rw [h2]
    | ok r => right; rw [h2]
  rw [if_neg h2]
  by_cases h3 : block.name = "add-tool"
  · rw [if_pos h3]
    cases hq : rc.addToolResp block.args with
    | error e => right; rw [h3]
    | ok r => right; rw [h3]
  rw [if_neg h3]
  by_cases h4 : block.name = "add-server"
  · rw [if_pos h4]
    cases hq : rc.addServerResp block.args with
    | error e => right; rw [h4]
    | ok r => right; rw [h4]
  rw [if_neg h4]
  by_cases h5 : block.name = "delete-tool"
  · rw [if_pos h5]
    cases hq : rc.deleteToolResp block.args with
    | error e => right; rw [h5]
    | ok r => right; rw [h5]
  rw [if_neg h5]
  left; rfl

theorem executeTool_registry_handled_trace (st : ToolStoreState) (rc : RCOracle)
    (up : Upstream) (block : ToolUseB)
    (h : rc.toolNames.contains block.name = true)
    (hh : block.name ∈ handledRegistryNames) :
    (executeTool st rc up block).2.1 = [Event.rcCall block.name] := by
  rw [executeTool, if_pos h]
  rw [handledRegistryNames] at hh
  simp only [List.mem_cons, List.mem_singleton, List.not_mem_nil, or_false] at hh
  rcases hh with h1 | h1 | h1 | h1 | h1 <;> rw [h1]
  · cases hq : rc.queryToolsResp block.args <;> simp [hq]
  · cases hq : rc.listToolsResp block.args <;> simp [hq]
  · cases hq : rc.addToolResp block.args <;> simp [hq]
  · cases hq : rc.addServerResp block.args <;> simp [hq]
  · cases hq : rc.deleteToolResp block.args <;> simp [hq]

theorem executeUpstream_no_rcCall (st : ToolStoreState) (up : Upstream)
    (block : ToolUseB) (n : String) :
    Event.rcCall n ∉ (executeUpstream st up block).2.1 := by
  rw [executeUpstream]
  cases hinfo : mapGet st.toolServerInfo block.name with
  | none => simp
  | some serverInfo =>
    simp only
    split
    · split <;> simp
    · split
      · simp
      · split <;> simp

/-- C2: `executeTool` dispatches by registry-name precedence: a tool name in
the Registry Client's tool-name set is handled by the Registry Client branch
(every handled meta-tool produces exactly one registry call) and never
reaches an upstream server — no connect and no upstream call occurs, even if
the same name is also registered in `toolServerInfo` — while a name outside
that set never produces a registry call. -/
theorem executeTool_dispatch (st : ToolStoreState) (rc : RCOracle)
    (up : Upstream) (block : ToolUseB) :
    (rc.toolNames.contains block.name = true →
      (block.name ∈ handledRegistryNames →
        (executeTool st rc up block).2.1 = [Event.rcCall block.name]) ∧
      (∀ ck tn, Event.upstreamCall ck tn ∉ (executeTool st rc up block).2.1) ∧
      (∀ ck, Event.connect ck ∉ (executeTool st rc up block).2.1))
    ∧ (rc.toolNames.contains block.name = false →
      ∀ n, Event.rcCall n ∉ (executeTool st rc up block).2.1) := by
  constructor
  · intro h
    refine ⟨executeTool_registry_handled_trace st rc up block h, ?_, ?_⟩
    · intro ck tn hmem
      rcases executeTool_registry_trace st rc up block h with ht | ht <;>
        rw [ht] at hmem <;> simp at hmem
    · intro ck hmem
      rcases executeTool_registry_trace st rc up block h with ht | ht <;>
        rw [ht] at hmem <;> simp at hmem
  · intro h n
    rw [executeTool, if_neg (by rw [h]; exact Bool.false_ne_true)]
    exact executeUpstream_no_rcCall st up block n

/-- A registry whose only advertised meta-tool is `query-tools` and whose
`query-tools` response is one `search` tool at `http://a::sse`. -/
def wServer : MCPServer := ⟨"http://a", "sse", none⟩

def wOrigin : ToolWithServerInfo := ⟨wTool, wServer⟩

def wQueryToolsTool : MCPTool := ⟨"query-tools", some "search the registry", "\x7b\x7d"⟩

def wRC : RCOracle :=
  ⟨[wQueryToolsTool],
   fun _ => .ok ⟨[wOrigin], "[\x7b...\x7d]"⟩,
   fun _ => .error "unused",
   fun _ => .error "unused",
   fun _ => .error "unused",
   fun _ => .error "unused"⟩

def noUpstream : Upstream :=
  ⟨fun _ => .error "no network", fun _ _ _ => .error "no network"⟩

/-- A registry client with no tools at all (all calls fail). -/
def emptyRC : RCOracle :=
  ⟨[], fun _ => .error "unused", fun _ => .error "unused",
   fun _ => .error "unused", fun _ => .error "unused", fun _ => .error "unused"⟩

theorem executeTool_dispatch_witness :
    (executeTool wStore wRC noUpstream ⟨"id1", "query-tools", none⟩).2.1
        = [Event.rcCall "query-tools"] ∧
    Event.upstreamCall "http://a::sse" "query-tools"
        ∉ (executeTool wStore wRC noUpstream ⟨"id1", "query-tools", none⟩).2.1 ∧
    Event.connect "http://a::sse"
        ∉ (executeTool wStore wRC noUpstream ⟨"id1", "query-tools", none⟩).2.1 ∧
    Event.rcCall "search"
        ∉ (executeTool wStore wRC noUpstream ⟨"id1", "search", none⟩).2.1 :=
  ⟨((executeTool_dispatch wStore wRC noUpstream ⟨"id1", "query-tools", none⟩).1
      (by decide)).1 (by decide),
   ((executeTool_dispatch wStore wRC noUpstream ⟨"id1", "query-tools", none⟩).1
      (by decide)).2.1 "http://a::sse" "query-tools",
   ((executeTool_dispatch wStore wRC noUpstream ⟨"id1", "query-tools", none⟩).1
      (by decide)).2.2 "http://a::sse",
   (executeTool_dispatch wStore wRC noUpstream ⟨"id1", "search", none⟩).2
     (by decide) "search"⟩

/-- C3: a successful `query-tools` dispatch through `executeTool` registers
every returned origin into the ToolStore (descriptor into `availableTools`,
server into `toolServerInfo`) without opening any upstream connection (the
only event is the registry call), and the returned `ToolResult` carries the
short human summary `successfully queried and added <names>` — under the
sanitizer's fast-path guard, literally that string — rather than the raw
JSON. -/
theorem executeTool_queryTools_registers (st : ToolStoreState) (rc : RCOracle)
    (up : Upstream) (id : String) (args : Option Args)
    (origins : List ToolWithServerInfo) (raw : String)
    (hin : rc.toolNames.contains "query-tools" = true)
    (hresp : rc.queryToolsResp args = .ok ⟨origins, raw⟩) :
    (executeTool st rc up ⟨id, "query-tools", args⟩).2.1
        = [Event.rcCall "query-tools"] ∧
    (∀ o ∈ origins,
      mapHas (executeTool st rc up ⟨id, "query-tools", args⟩).1.availableTools
          o.tool.name = true ∧
      mapHas (executeTool st rc up ⟨id, "query-tools", args⟩).1.toolServerInfo
          o.tool.name = true) ∧
    ((origins.map (fun o => o.tool.name)).Nodup →
      ∀ o ∈ origins,
        mapGet (executeTool st rc up ⟨id, "query-tools", args⟩).1.availableTools
            o.tool.name = some o.tool ∧
        mapGet (executeTool st rc up ⟨id, "query-tools", args⟩).1.toolServerInfo
            o.tool.name = some ⟨o.server.url, o.server.type, o.server.authToken⟩) ∧
    (executeTool st rc up ⟨id, "query-tools", args⟩).2.2
        = .ok ⟨id,
            [mkTextBlock ("successfully queried and added "
                ++ joinSep ", " (origins.map (fun o => o.tool.name))) false],
            false, false⟩ ∧
    (∀ summary,
      summary = "successfully queried and added "
          ++ joinSep ", " (origins.map (fun o => o.tool.name)) →
      summary.length < 100 → summary.toList.contains '<' = false →
      summary.toList.contains '\\' = false →
      (executeTool st rc up ⟨id, "query-tools", args⟩).2.2
          = .ok ⟨id, [⟨summary, false⟩], false, false⟩) := by
  have hred : executeTool st rc up ⟨id, "query-tools", args⟩
      = ((registerTools st origins).1, [Event.rcCall "query-tools"],
          .ok ⟨id,
            [mkTextBlock ("successfully queried and added "
                ++ joinSep ", " (origins.map (fun o => o.tool.name))) false],
            false, false⟩) := by
    have hmem : "query-tools" ∈ rc.toolNames := by simpa using hin
    simp [executeTool, hmem, hresp]
  rw [hred]
  have hfold : (registerTools st origins).1 = origins.foldl registerToolsStep st :=
    registerTools_fst origins st []
  refine ⟨rfl, ?_, ?_, rfl, ?_⟩
  · intro o ho
    rw [hfold]
    exact ⟨rtFold_avail_has origins o ho st, rtFold_serverInfo_has origins o ho st⟩
  · intro hnd o ho
    rw [hfold]
    exact ⟨rtFold_avail_mem_nodup origins hnd o ho st,
      rtFold_serverInfo_mem_nodup origins hnd o ho st⟩
  · intro summary hsum h1 h2 h3
    have : mkTextBlock ("successfully queried and added "
        ++ joinSep ", " (origins.map (fun o => o.tool.name))) false
        = ⟨summary, false⟩ := by
      rw [mkTextBlock, ← hsum, sanitizeText_short summary ⟨h1, h2, h3⟩]
    rw [this]

theorem executeTool_queryTools_registers_witness :
    (executeTool emptyStore wRC noUpstream ⟨"id1", "query-tools", none⟩).2.1
        = [Event.rcCall "query-tools"] ∧
    mapGet (executeTool emptyStore wRC noUpstream
        ⟨"id1", "query-tools", none⟩).1.availableTools wTool.name = some wTool ∧
    mapGet (executeTool emptyStore wRC noUpstream
        ⟨"id1", "query-tools", none⟩).1.toolServerInfo wTool.name
      = some ⟨wServer.url, wServer.type, wServer.authToken⟩ ∧
    (executeTool emptyStore wRC noUpstream ⟨"id1", "query-tools", none⟩).2.2
      = .ok ⟨"id1", [⟨"successfully queried and added search", false⟩],
          false, false⟩ := by
  have thm := executeTool_queryTools_registers emptyStore wRC noUpstream "id1"
    none [wOrigin] "[\x7b...\x7d]" (by decide) rfl
  exact ⟨thm.1,
    (thm.2.2.1 (by decide) wOrigin (List.mem_singleton_self wOrigin)).1,
    (thm.2.2.1 (by decide) wOrigin (List.mem_singleton_self wOrigin)).2,
    thm.2.2.2.2 "successfully queried and added search" (by decide) (by decide)
      (by decide) (by decide)⟩

/-- C4 counterexample: for a tool name that is neither a registry meta-tool
nor registered (`foo` on an empty store), `executeTool` throws
(`Except.error`) instead of returning an error-flagged `ToolResult` — the
claim's `ToolResult(isError=true)`, does-not-raise behaviour does not hold. -/
theorem executeTool_unknown_raises_cex :
    (executeTool emptyStore emptyRC noUpstream ⟨"id1", "foo", none⟩).2.2
      = Except.error "No server information for tool: foo" := by
  simp [executeTool, executeUpstream, emptyRC, emptyStore, RCOracle.toolNames,
    mapGet]

/-- C4 (amended): for a ToolUse block whose name is neither a registry
meta-tool nor a registered tool, `executeTool` performs no call and throws
the diagnostic error `No server information for tool: <name>` (from
`ensureClientConnection`, re-thrown by the catch block); it does not return
a `ToolResult`.  The caller (`processQuery`'s inner catch) is what converts
this into an `Exception` block. -/
theorem executeTool_unknown_raises (st : ToolStoreState) (rc : RCOracle)
    (up : Upstream) (block : ToolUseB)
    (h1 : rc.toolNames.contains block.name = false)
    (h2 : mapGet st.toolServerInfo block.name = none) :
    executeTool st rc up block
      = (st, [], .error ("No server information for tool: " ++ block.name)) := by
  rw [executeTool, if_neg (by rw [h1]; exact Bool.false_ne_true)]
  rw [executeUpstream, h2]

theorem executeTool_unknown_raises_witness :
    executeTool emptyStore emptyRC noUpstream ⟨"id2", "bar", none⟩
      = (emptyStore, [], .error "No server information for tool: bar") :=
  executeTool_unknown_raises emptyStore emptyRC noUpstream ⟨"id2", "bar", none⟩
    (by decide) rfl

/-! ## Agent Loop (`AntClient.processQuery`, `client.ts`, second variant)

The vendor LLM behind `Agent.chat` is an oracle; `Memory.load` is the
`memLoad` input.  The loop body walks the assistant messages returned by
the agent, accumulating a scratch assistant message, dispatching ToolUse
blocks through the ToolStore, and terminating on the `UserInput` /
`FinalResponse` sentinels. -/

structure AgentOracle where
  chat : List Message → List MCPTool → Except String (List Message)

structure PQEnv where
  agent : AgentOracle
  rc : RCOracle
  up : Upstream
  memLoad : List Message

def MAX_RECURSION_DEPTH : Nat := 10

/-- The re-evaluation instruction pushed at recursion depth > 0. -/
def reEvalPrompt (depth : Nat) (query : String) : String :=
  "New messages have been added since your last response. There could be new context, or tools that have been added. Please re-evaluate the original query with your expanded knowledge set. (recursion level: "
    ++ toString depth ++ "): \"" ++ query ++ "\""

/-- The message appended to the conversation by the outer catch. -/
def pqErrorMsg (depth : Nat) (e : String) : String :=
  "Error processing query (recursion depth " ++ toString depth ++ "): " ++ e

/-- Outcome of draining the agent's returned blocks: either an early
`return` (sentinel hit) with the final conversation, or fall-through with
the accumulated conversation, scratch blocks, and ToolStore state. -/
inductive LoopOut where
  | terminal (msgs : List Message)
  | cont (msgs : List Message) (scratch : List ContentBlock) (st : ToolStoreState)
deriving Repr

/-- The inner `for (const content of message.content)` loop.  `scratch` is
`processedMessages.content`.  An `Exception` block has no branch in the
source if-chain and is dropped. -/
def processContents (rc : RCOracle) (up : Upstream) :
    ToolStoreState → List Message → List ContentBlock → List ContentBlock → LoopOut
  | st, msgs, scratch, [] => .cont msgs scratch st
  | st, msgs, scratch, b :: rest =>
    match b with
    | .text tb => processContents rc up st msgs (scratch ++ [.text tb]) rest
    | .toolUse tid tname targs uf =>
      let scratch' := scratch ++ [.toolUse tid tname targs uf]
      match executeTool st rc up ⟨tid, tname, targs⟩ with
      | (st', _, .ok trb) =>
        processContents rc up st'
          (msgs ++ [⟨.assistant, scratch'⟩, ⟨.user, [.toolResult trb]⟩]) [] rest
      | (st', _, .error e) =>
        processContents rc up st' msgs (scratch' ++ [.exception e]) rest
    | .toolResult trb =>
      processContents rc up st msgs (scratch ++ [.toolResult trb]) rest
    | .userInput req =>
      .terminal (msgs ++ [⟨.assistant, scratch ++ [.userInput req]⟩])
    | .thinking sig th =>
      processContents rc up st msgs (scratch ++ [.thinking sig th]) rest
    | .finalResponse r =>
      .terminal (msgs ++ [⟨.assistant, scratch ++ [.finalResponse r]⟩])
    | .exception _ => processContents rc up st msgs scratch rest

/-- The outer `for (const message of newMessages)` loop; non-assistant
messages are logged and skipped. -/
def processMessages (rc : RCOracle) (up : Upstream) :
    ToolStoreState → List Message → List ContentBlock → List Message → LoopOut
  | st, msgs, scratch, [] => .cont msgs scratch st
  | st, msgs, scratch, m :: rest =>
    if m.role = .assistant then
      match processContents rc up st msgs scratch m.content with
      | .terminal out => .terminal out
      | .cont msgs' scratch' st' => processMessages rc up st' msgs' scratch' rest
    else
      processMessages rc up st msgs scratch rest

/-- Models `AntClient.processQuery(query, recursionDepth, messages)`, with the
ToolStore state threaded explicitly. -/
def processQuery (env : PQEnv) (query : String) :
    Nat → List Message → ToolStoreState → List Message
  | depth, messages, st =>
    if _h : MAX_RECURSION_DEPTH ≤ depth then
      -- `messages[-1]?.addContent(new TextBlock(depthMessage, true))`:
      -- in JS `messages[-1]` is `undefined` (negative indices are not array
      -- elements), so the optional chain skips `addContent` and the
      -- conversation is returned without the depth diagnostic.
      messages
    else
      let messages1 :=
        if depth = 0 then
          env.memLoad ++ [⟨.user, [.text (mkTextBlock query true)]⟩]
        else
          messages ++ [⟨.user, [.text (mkTextBlock (reEvalPrompt depth query) false)]⟩]
      match env.agent.chat messages1 (getAvailableTools st env.rc) with
      | .error e =>
        messages1 ++ [⟨.system, [.exception (pqErrorMsg depth e)]⟩]
      | .ok newMessages =>
        match processMessages env.rc env.up st messages1 [] newMessages with
        | .terminal out => out
        | .cont msgs scratch st' =>
          let msgs' := if scratch.length > 0 then msgs ++ [⟨.assistant, scratch⟩] else msgs
          processQuery env query (depth + 1) msgs' st'
  termination_by depth _ _ => MAX_RECURSION_DEPTH - depth
  decreasing_by simp_wf; omega

/-- C7 (code-bug evidence): at the depth cap the loop returns the
conversation *unchanged* — the depth diagnostic (`depthMessage`, containing
"Maximum re-evaluation depth") is never attached, because
`messages[-1]?.addContent(...)` is a no-op in JavaScript.  The call does
terminate without raising (it returns), but the returned conversation has no
diagnostic Text block that was not already there. -/
theorem processQuery_depth_cap_returns_unchanged (env : PQEnv) (query : String)
    (messages : List Message) (st : ToolStoreState) :
    processQuery env query MAX_RECURSION_DEPTH messages st = messages := by
  rw [processQuery]
  rw [dif_pos (le_refl MAX_RECURSION_DEPTH)]

/-! ## `inMemoryRegistry` (part_008 / `src/registry/inMemoryRegistry.ts`)

The LangChain `MemoryVectorStore` holds one `Document` per `addDocuments`
call; its `similaritySearch` ranks by embedding distance, which is an
external service, so the search is an oracle over the stored documents.
`metadata.toolData` is `JSON.stringify(tool)` and is `JSON.parse`d back on
query; the round-trip is modelled by storing the tool value itself. -/

namespace InMemoryRegistry

/-- A `Document` in the vector store: `pageContent` plus the metadata
fields the registry reads back. -/
structure Doc where
  pageContent : String
  name : String
  serverId : String
  toolData : MCPTool
deriving Repr, DecidableEq

/-- JS template interpolation of a possibly-`undefined` description. -/
def descString : Option String → String
  | some s => s
  | none => "undefined"

/-- The `Document` built by `addTool` (and by `deleteTool`'s rebuild):
`pageContent: "{name}: {description}"`, metadata `name`, `serverId`,
`toolData`. -/
def mkDoc (tool : MCPTool) (server : MCPServer) : Doc :=
  ⟨tool.name ++ ": " ++ descString tool.description, tool.name,
    server.getId, tool⟩

/-- Models `inMemoryRegistry` instance state. -/
structure State where
  vectorStore : Option (List Doc)
  tools : List (String × ToolWithServerInfo)
  servers : List (String × MCPServer)
deriving Repr, DecidableEq

/-- The class's `initialize()` method: create the empty vector store if
absent (named `initStore` here). -/
def initStore (s : State) : State :=
  if s.vectorStore.isNone then { s with vectorStore := some [] } else s

/-- Models `addTool(tool, server)`: create the store if needed;
`tools.set(tool.name, …)`; `servers.set(server.getId(), server)`; append
one document to the vector store; return the tool. -/
def addTool (s : State) (tool : MCPTool) (server : MCPServer) :
    State × MCPTool :=
  let s := initStore s
  let toolWithServer : ToolWithServerInfo := ⟨tool, server⟩
  let s := { s with
    tools := mapSet s.tools tool.name toolWithServer,
    servers := mapSet s.servers server.getId server }
  let s := { s with
    vectorStore := some ((s.vectorStore.getD []) ++ [mkDoc tool server]) }
  (s, tool)

/-- Models `deleteTool(name)`: false (and no change) when the store is null or the
name is absent; otherwise delete the map entry and rebuild the vector store
from the remaining tools, in map order. -/
def deleteTool (s : State) (name : String) : State × Bool :=
  if s.vectorStore.isNone || !(mapHas s.tools name) then (s, false)
  else
    let tools' := mapDelete s.tools name
    let docs := tools'.map (fun p => mkDoc p.2.tool p.2.server)
    ({ s with tools := tools', vectorStore := some docs }, true)

/-- Models `queryTools(query, limit)`: `search` is the similarity-search oracle
over the stored documents.  A falsy limit (absent or 0) defaults to 10; the
query gets the connection-tools suffix; results resolve their server by id
(missing servers and unparsable tool data yield `null` and are filtered
out — the latter cannot occur in the model, where the JSON round-trip is
exact). -/
def queryTools (search : List Doc → String → Nat → List Doc) (s : State)
    (query : String) (limit : Option Nat) : State × List ToolWithServerInfo :=
  match s.vectorStore with
  | none => (initStore s, [])
  | some docs =>
    let lim := match limit with
      | none => 10
      | some l => if l = 0 then 10 else l
    let results := search docs
      (query ++ "\n Additionally, any relevant connection tools") lim
    let toolsFound := results.filterMap (fun d =>
      match mapGet s.servers d.serverId with
      | none => none
      | some srv => some (⟨d.toolData, srv⟩ : ToolWithServerInfo))
    (s, toolsFound)

theorem deleteTool_true_eq (s : State) (n : String)
    (hnn : s.vectorStore.isNone = false) (hhas : mapHas s.tools n = true) :
    deleteTool s n
      = ({ s with
            tools := mapDelete s.tools n,
            vectorStore := some ((mapDelete s.tools n).map
              (fun p => mkDoc p.2.tool p.2.server)) }, true) := by
  rw [deleteTool]
  simp [hnn, hhas]

theorem deleteTool_false_eq (s : State) (n : String)
    (hnn : s.vectorStore.isNone = false) (hhas : mapHas s.tools n = false) :
    deleteTool s n = (s, false) := by
  rw [deleteTool]
  simp [hnn, hhas]

/-- Every tool returned by `queryTools` comes from a document of the
current vector store, provided the search oracle only returns stored
documents. -/
theorem queryTools_result_from_docs
    (search : List Doc → String → Nat → List Doc)
    (hsearch : ∀ docs q k, ∀ d ∈ search docs q k, d ∈ docs)
    (s : State) (docs : List Doc) (hv : s.vectorStore = some docs)
    (q : String) (lim : Option Nat) (r : ToolWithServerInfo)
    (hr : r ∈ (queryTools search s q lim).2) :
    ∃ d ∈ docs, r.tool = d.toolData := by
  rw [queryTools.eq_def] at hr
  rw [hv] at hr
  simp only at hr
  rcases List.mem_filterMap.mp hr with ⟨d, hd, hfd⟩
  refine ⟨d, hsearch _ _ _ d hd, ?_⟩
  cases hsrv : mapGet s.servers d.serverId with
  | none => rw [hsrv] at hfd; cases hfd
  | some srv =>
    rw [hsrv] at hfd
    cases hfd
    rfl

end InMemoryRegistry

/-- C5: with an initialized store, over any similarity-search oracle that
only returns stored documents, and any well-formed registry state (map keys
match the stored tool names — the invariant `addTool` maintains):
`deleteTool(n)` returns false exactly when `n` is not a stored tool name
(and then the state is unchanged), and when it returns true no subsequent
`queryTools` result can carry tool name `n` — the rebuilt index has no
document for it. -/
theorem deleteTool_queryTools_spec
    (search : List InMemoryRegistry.Doc → String → Nat → List InMemoryRegistry.Doc)
    (s : InMemoryRegistry.State) (n : String)
    (hsearch : ∀ docs q k, ∀ d ∈ search docs q k, d ∈ docs)
    (hwf : ∀ p ∈ s.tools, p.2.tool.name = p.1)
    (hinit : s.vectorStore.isSome = true) :
    ((InMemoryRegistry.deleteTool s n).2 = false ↔ mapHas s.tools n = false) ∧
    ((InMemoryRegistry.deleteTool s n).2 = false →
      (InMemoryRegistry.deleteTool s n).1 = s) ∧
    ((InMemoryRegistry.deleteTool s n).2 = true →
      ∀ q lim r,
        r ∈ (InMemoryRegistry.queryTools search
              (InMemoryRegistry.deleteTool s n).1 q lim).2 →
        r.tool.name ≠ n) := by
  have hnn : s.vectorStore.isNone = false := by
    cases hv : s.vectorStore with
    | none => rw [hv] at hinit; simp at hinit
    | some docs => rfl
  by_cases hhas : mapHas s.tools n = true
  · rw [InMemoryRegistry.deleteTool_true_eq s n hnn hhas]
    refine ⟨by simp [hhas], by simp, ?_⟩
    intro _ q lim r hr
    have hfrom := InMemoryRegistry.queryTools_result_from_docs search hsearch _
      ((mapDelete s.tools n).map (fun p => InMemoryRegistry.mkDoc p.2.tool p.2.server))
      rfl q lim r hr
    rcases hfrom with ⟨d, hd, htool⟩
    rcases List.mem_map.mp hd with ⟨p, hp, hpd⟩
    have hpmem : p ∈ s.tools := (List.mem_filter.mp hp).1
    have hpne : p.1 ≠ n := by
      have := (List.mem_filter.mp hp).2
      simpa using this
    have hkey : p.2.tool.name = p.1 := hwf p hpmem
    rw [htool, ← hpd]
    simpa [InMemoryRegistry.mkDoc, hkey] using hpne
  · have hhasF : mapHas s.tools n = false := by
      cases h' : mapHas s.tools n with
      | false => rfl
      | true => exact absurd h' hhas
    rw [InMemoryRegistry.deleteTool_false_eq s n hnn hhasF]
    exact ⟨by simp [hhasF], fun _ => rfl, by intro h; cases h⟩

def oTool : MCPTool := ⟨"other", some "another tool", "\x7b\x7d"⟩

/-- A registry state holding `search` and `other`, both from `wServer`. -/
def wRegState2 : InMemoryRegistry.State :=
  ⟨some [InMemoryRegistry.mkDoc wTool wServer, InMemoryRegistry.mkDoc oTool wServer],
   [("search", ⟨wTool, wServer⟩), ("other", ⟨oTool, wServer⟩)],
   [("http://a::sse", wServer)]⟩

/-- A similarity-search oracle that returns every stored document. -/
def allDocsSearch : List InMemoryRegistry.Doc → String → Nat →
    List InMemoryRegistry.Doc :=
  fun docs _ _ => docs

theorem deleteTool_queryTools_spec_witness :
    ((InMemoryRegistry.deleteTool wRegState2 "search").2 = false
      ↔ mapHas wRegState2.tools "search" = false) ∧
    (⟨oTool, wServer⟩ : ToolWithServerInfo).tool.name ≠ "search" := by
  have thm := deleteTool_queryTools_spec allDocsSearch wRegState2 "search"
    (fun docs q k d hd => hd) (by decide) rfl
  exact ⟨thm.1, thm.2.2 (by decide) "q" none ⟨oTool, wServer⟩ (by decide)⟩

def emptyReg : InMemoryRegistry.State := ⟨some [], [], []⟩

def wServerB : MCPServer := ⟨"http://b", "sse", none⟩

/-- C6 counterexample: `addTool` is keyed by `tool.name` alone, not by the
compound `(server.id, tool.name)`.  Adding `search` from `http://a::sse`
and then `search` from `http://b::sse` leaves a single map entry bound to
the second server (the first origin is no longer retrievable), and
re-adding the same `(server, name)` pair appends a second, duplicate index
document instead of replacing the existing one. -/
theorem addTool_not_compound_key_cex :
    (InMemoryRegistry.addTool
        (InMemoryRegistry.addTool emptyReg wTool wServer).1 wTool wServerB).1.tools
      = [("search", ⟨wTool, wServerB⟩)] ∧
    (InMemoryRegistry.addTool
        (InMemoryRegistry.addTool emptyReg wTool wServer).1 wTool wServer).1.vectorStore
      = some [InMemoryRegistry.mkDoc wTool wServer,
              InMemoryRegistry.mkDoc wTool wServer] := by
  exact ⟨by decide, by decide⟩

theorem initStore_tools (s : InMemoryRegistry.State) :
    (InMemoryRegistry.initStore s).tools = s.tools := by
  rw [InMemoryRegistry.initStore]
  split <;> rfl

theorem initStore_vectorStore_getD (s : InMemoryRegistry.State) :
    (InMemoryRegistry.initStore s).vectorStore.getD []
      = s.vectorStore.getD [] := by
  rw [InMemoryRegistry.initStore]
  cases h : s.vectorStore <;> simp [h]

/-- C6 (amended): `Registry.addTool(tool, server)` is an upsert keyed by
`tool.name` alone — the new `(tool, server)` pair replaces whatever origin
previously held that name (entries under other names are untouched) — and
the similarity index always *appends* a fresh document for the tool, never
replacing an existing one, so re-adding a pair duplicates its index entry. -/
theorem addTool_upsert_by_name (s : InMemoryRegistry.State) (tool : MCPTool)
    (server : MCPServer) :
    mapGet (InMemoryRegistry.addTool s tool server).1.tools tool.name
      = some ⟨tool, server⟩ ∧
    (∀ k, k ≠ tool.name →
      mapGet (InMemoryRegistry.addTool s tool server).1.tools k
        = mapGet s.tools k) ∧
    (InMemoryRegistry.addTool s tool server).1.vectorStore
      = some ((s.vectorStore.getD [])
          ++ [InMemoryRegistry.mkDoc tool server]) ∧
    (InMemoryRegistry.addTool s tool server).2 = tool := by
  refine ⟨?_, ?_, ?_, rfl⟩
  · show mapGet (mapSet (InMemoryRegistry.initStore s).tools tool.name
        ⟨tool, server⟩) tool.name = some ⟨tool, server⟩
    exact mapGet_mapSet_self _ _ _
  · intro k hk
    show mapGet (mapSet (InMemoryRegistry.initStore s).tools tool.name
        ⟨tool, server⟩) k = mapGet s.tools k
    rw [mapGet_mapSet_ne _ _ _ _ hk, initStore_tools]
  · show some ((InMemoryRegistry.initStore s).vectorStore.getD []
        ++ [InMemoryRegistry.mkDoc tool server]) = _
    rw [initStore_vectorStore_getD]

theorem addTool_upsert_by_name_witness :
    mapGet (InMemoryRegistry.addTool emptyReg wTool wServer).1.tools wTool.name
      = some ⟨wTool, wServer⟩ ∧
    mapGet (InMemoryRegistry.addTool emptyReg wTool wServer).1.tools "zzz"
      = mapGet emptyReg.tools "zzz" ∧
    (InMemoryRegistry.addTool emptyReg wTool wServer).1.vectorStore
      = some ((emptyReg.vectorStore.getD [])
          ++ [InMemoryRegistry.mkDoc wTool wServer]) ∧
    (InMemoryRegistry.addTool emptyReg wTool wServer).2 = wTool := by
  have thm := addTool_upsert_by_name emptyReg wTool wServer
  exact ⟨thm.1, thm.2.1 "zzz" (by decide), thm.2.2.1, thm.2.2.2⟩

/-! ## Registry Service response envelopes (`RegistryMcpServer`, part_008)

The two registered meta-tools, `query-tools` and `list-tools` (the
`add-server`, `add-tool` and `delete-tool` registrations are commented out
in the source).  Each handler wraps a `Registry` call whose outcome is an
input; `JSON.stringify` of the payload is an oracle
(`JSON.stringify(null)` is the literal `"null"`). -/

/-- One item of an MCP tool-response `content` array as produced by the
handlers: `{type: "text", text, isJson?}` — `type` is always `"text"`, and
a missing `isJson` field is `false`. -/
structure ContentItem where
  text : String
  isJson : Bool
deriving Repr, DecidableEq

/-- The `query-tools` handler body. -/
def queryToolsHandler (stringify : List ToolWithServerInfo → String)
    (resp : Except String (List ToolWithServerInfo)) : List ContentItem :=
  match resp with
  | .ok tools => [⟨stringify tools, true⟩]
  | .error e => [⟨"null", true⟩, ⟨"Error querying tools: " ++ e, false⟩]

/-- The `list-tools` handler body. -/
def listToolsHandler (stringify : List MCPTool → String)
    (resp : Except String (List MCPTool)) : List ContentItem :=
  match resp with
  | .ok tools =>
    [⟨stringify tools, true⟩,
     ⟨if tools.length > 0 then "Found " ++ toString tools.length ++ " tools"
       else "No tools found in the registry.", false⟩]
  | .error e => [⟨"null", true⟩, ⟨"Error listing tools: " ++ e, false⟩]

/-- C8 counterexample: a successful `query-tools` response consists of the
JSON-tagged block alone — every block in it is JSON-tagged, so it carries
no second, non-JSON human-readable summary block. -/
theorem queryTools_success_no_human_block_cex :
    queryToolsHandler (fun _ => "[]") (.ok []) = [⟨"[]", true⟩] ∧
    (queryToolsHandler (fun _ => "[]") (.ok [])).all (fun i => i.isJson) = true :=
  ⟨rfl, rfl⟩

/-- C8 (amended): of the two meta-tools the Registry Service actually
registers, `list-tools` always answers with a JSON-tagged block plus a
non-JSON human summary, and both tools answer errors with a JSON-tagged
`"null"` block plus a non-JSON human error message; but a successful
`query-tools` response carries only the JSON-tagged block, with no human
summary (and `add-tool` / `add-server` / `delete-tool` are not registered
at all). -/
theorem registryHandlers_envelope
    (stringifyQ : List ToolWithServerInfo → String)
    (stringifyL : List MCPTool → String)
    (qe le : String) (qtools : List ToolWithServerInfo) (ltools : List MCPTool) :
    queryToolsHandler stringifyQ (.error qe)
      = [⟨"null", true⟩, ⟨"Error querying tools: " ++ qe, false⟩] ∧
    queryToolsHandler stringifyQ (.ok qtools) = [⟨stringifyQ qtools, true⟩] ∧
    listToolsHandler stringifyL (.error le)
      = [⟨"null", true⟩, ⟨"Error listing tools: " ++ le, false⟩] ∧
    listToolsHandler stringifyL (.ok ltools)
      = [⟨stringifyL ltools, true⟩,
         ⟨if ltools.length > 0 then "Found " ++ toString ltools.length ++ " tools"
           else "No tools found in the registry.", false⟩] :=
  ⟨rfl, rfl, rfl, rfl⟩

/-! ## `RegistryClient.queryTools` (`registryClient.ts`)

The MCP call to the registry server and the `JSON.parse` of the tagged
payload are oracles.  The client is assumed initialized (`this.registry`
non-null — `initialize` always sets it before any call). -/

/-- A raw content item of a `callTool` response as inspected by
`getJsonContent`: `isJson` is `none` when the field is absent, and the
strict comparison `item.isJson === true` only accepts `some true`. -/
structure RawItem where
  type : String
  text : String
  isJson : Option Bool
deriving Repr, DecidableEq

structure CallResultRaw where
  content : List RawItem
deriving Repr, DecidableEq

def isJsonItem (item : RawItem) : Bool :=
  item.type == "text" && item.isJson == some true

/-- Models `RegistryClient.getJsonContent`. -/
def getJsonContent (result : CallResultRaw) : Except String String :=
  match result.content.find? isJsonItem with
  | none => .error "Response does not contain JSON data"
  | some item => .ok item.text

/-- Models `RegistryClient.queryTools(args)`: `callResp` is the registry's
response (`none` models `result === undefined`); `parse` models
`JSON.parse` into `ToolWithServerInfo[]` (and the subsequent `.map`, which
rebuilds each `MCPServer` from `url`/`type`/`authToken`).  Both
`getJsonContent` and `parse` failures are swallowed by the catch, which
returns the empty list with raw JSON `"[]"`. -/
def RegistryClient_queryTools
    (parse : String → Except String (List ToolWithServerInfo))
    (args : Option Args) (callResp : Option CallResultRaw) :
    Except String (WithRaw (List ToolWithServerInfo)) :=
  match callResp with
  | none => .error ("Registry failed to queryTools with args: "
      ++ (match args with | some a => a.raw | none => "undefined"))
  | some result =>
    match getJsonContent result with
    | .error _ => .ok ⟨[], "[]"⟩
    | .ok rawResult =>
      match parse rawResult with
      | .error _ => .ok ⟨[], "[]"⟩
      | .ok parsedData =>
        .ok ⟨parsedData.map (fun item =>
            ⟨item.tool, MCPServer.mk item.server.url item.server.type
              item.server.authToken⟩),
          rawResult⟩

/-- C10: a registry response without a JSON-tagged text block, or whose
JSON-tagged block fails to parse, makes `queryTools` return
`{result: [], rawResult: "[]"}` without raising — exactly the value a
well-formed zero-match response (`"[]"`) produces, so the Toolbox cannot
distinguish the two. -/
theorem registryClient_queryTools_malformed
    (parse : String → Except String (List ToolWithServerInfo))
    (args : Option Args) (result : CallResultRaw) :
    (result.content.find? isJsonItem = none →
      RegistryClient_queryTools parse args (some result) = .ok ⟨[], "[]"⟩) ∧
    (∀ item e, result.content.find? isJsonItem = some item →
      parse item.text = .error e →
      RegistryClient_queryTools parse args (some result) = .ok ⟨[], "[]"⟩) ∧
    (∀ item, result.content.find? isJsonItem = some item →
      item.text = "[]" → parse "[]" = .ok [] →
      RegistryClient_queryTools parse args (some result) = .ok ⟨[], "[]"⟩) := by
  refine ⟨?_, ?_, ?_⟩
  · intro hnone
    rw [RegistryClient_queryTools, getJsonContent, hnone]
  · intro item e hitem hparse
    rw [RegistryClient_queryTools, getJsonContent, hitem]
    simp only
    rw [hparse]
  · intro item hitem htext hparse
    rw [RegistryClient_queryTools, getJsonContent, hitem]
    simp only
    rw [htext, hparse]
    rfl

def badParse : String → Except String (List ToolWithServerInfo) :=
  fun s => if s = "[]" then .ok [] else .error "Unexpected token"

def respNoJson : CallResultRaw := ⟨[⟨"text", "hello", none⟩]⟩

def respBadJson : CallResultRaw := ⟨[⟨"text", "\x7bnot json", some true⟩]⟩

def respEmptyJson : CallResultRaw := ⟨[⟨"text", "[]", some true⟩]⟩

theorem registryClient_queryTools_malformed_witness :
    RegistryClient_queryTools badParse none (some respNoJson) = .ok ⟨[], "[]"⟩ ∧
    RegistryClient_queryTools badParse none (some respBadJson) = .ok ⟨[], "[]"⟩ ∧
    RegistryClient_queryTools badParse none (some respEmptyJson) = .ok ⟨[], "[]"⟩ := by
  have h1 := (registryClient_queryTools_malformed badParse none respNoJson).1
    (by decide)
  have h2 := (registryClient_queryTools_malformed badParse none respBadJson).2.1
    ⟨"text", "\x7bnot json", some true⟩ "Unexpected token" (by decide) rfl
  have h3 := (registryClient_queryTools_malformed badParse none respEmptyJson).2.2
    ⟨"text", "[]", some true⟩ (by decide) rfl rfl
  exact ⟨h1, h2, h3⟩

/-! ## Vendor message ingest (`Message.fromAnthropicMessage`, `messages.ts`)

Anthropic wire content is `text` / `tool_use` / `thinking` (anything else
throws `Unknown content type`).  A text block containing the literal
`NEED_USER_INPUT` becomes a `UserInputBlock`; else one containing
`FINAL_RESPONSE` becomes a `FinalResponseBlock`; the sentinel-request
extraction models the `/MARKER:?\s*(.+?)(?=\n\n|\n$|$)/s` match with its
replace-everything fallback. -/

/-- JS `String.prototype.includes`. -/
def strIncludes (hay needle : String) : Bool :=
  (findSplit needle.toList hay.toList).isSome

/-- JS `String.prototype.trim` (ASCII whitespace). -/
def jsTrim (s : String) : String :=
  String.mk (((s.toList.dropWhile isJsWhitespace).reverse.dropWhile
    isJsWhitespace).reverse)

/-- The `(?=\n\n|\n$|$)` lookahead: the capture stops where the remainder
is empty, a single final newline, or starts a blank line. -/
def stopLookahead (rest : List Char) : Bool :=
  match rest with
  | [] => true
  | ['\n'] => true
  | '\n' :: '\n' :: _ => true
  | _ => false

/-- The lazy `(.+?)` capture: at least one character, up to the first
position where the lookahead holds (`s` flag: `.` also matches `\n`). -/
def lazyCapture : List Char → List Char
  | [] => []
  | c :: rest => c :: (if stopLookahead rest then [] else lazyCapture rest)

/-- Models `text.match(/MARKER:?\s*(.+?)(?=\n\n|\n$|$)/s)`, returning the capture
group: find the marker, skip an optional colon and whitespace, then
capture lazily.  When only whitespace follows, the greedy `\s*` backtracks
one character so `(.+?)` can still match it. -/
def extractSentinel (marker : String) (text : String) : Option String :=
  match findSplit marker.toList text.toList with
  | none => none
  | some (_, afterMarker) =>
    let afterColon := match afterMarker with
      | ':' :: r => r
      | r => r
    let ws := afterColon.takeWhile isJsWhitespace
    let body := afterColon.dropWhile isJsWhitespace
    match body with
    | [] =>
      match ws.getLast? with
      | some c => some (String.mk [c])
      | none => none
    | _ => some (String.mk (lazyCapture body))

/-- One match of `/MARKER:?/g`, removed. -/
def stepMarkerColon (marker : String) (cs : List Char) :
    Option (List Char × List Char) :=
  match dropPrefixExact marker.toList cs with
  | some (':' :: r) => some ([], r)
  | some r => some ([], r)
  | none => none

/-- Models `text.replace(/MARKER:?/g, "")`. -/
def removeMarkerColon (marker : String) (text : String) : String :=
  String.mk (scanRewrite (stepMarkerColon marker) text.toList)

/-- Models `UserInputBlock.fromAnthropic`: extract the request (or strip the
markers as fallback) and prefix the fixed preamble (no separating space in
the source). -/
def userInputRequest (text : String) : String :=
  let userRequest := match extractSentinel "NEED_USER_INPUT" text with
    | some m => jsTrim m
    | none => jsTrim (removeMarkerColon "NEED_USER_INPUT" text)
  "I need additional information to proceed." ++ userRequest

/-- Models `FinalResponseBlock.fromAnthropic`. -/
def finalResponseText (text : String) : String :=
  match extractSentinel "FINAL_RESPONSE" text with
  | some m => jsTrim m
  | none => jsTrim (removeMarkerColon "FINAL_RESPONSE" text)

/-- Anthropic wire content blocks as consumed by `fromAnthropicMessage`
(`other` covers any further vendor type, which throws). -/
inductive AnthropicContent where
  | text (text : String)
  | toolUse (id name : String) (input : Option Args)
  | thinking (signature thinking : String)
  | other (type : String)
deriving Repr, DecidableEq

/-- The per-block conversion inside `Message.fromAnthropicMessage`:
`ContentBlockType.USER_INPUT.valueOf()` is the literal `NEED_USER_INPUT`
and is checked first; `FINAL_RESPONSE` second; plain text otherwise
(`TextBlock.fromAnthropic` passes `userFacing = true`, as does
`ToolUseBlock.fromAnthropic`). -/
def convertAnthropicContent : AnthropicContent → Except String ContentBlock
  | .text t =>
    if strIncludes t "NEED_USER_INPUT" then
      .ok (.userInput (userInputRequest t))
    else if strIncludes t "FINAL_RESPONSE" then
      .ok (.finalResponse (finalResponseText t))
    else
      .ok (.text (mkTextBlock t true))
  | .toolUse tid name input => .ok (.toolUse tid name input true)
  | .thinking sig th => .ok (.thinking sig th)
  | .other ty => .error ("Unknown content type: " ++ ty)

/-- Models `Message.fromAnthropicMessage`: convert every content block (the
`.map` with `throw` is a traversal) and wrap with the translated role. -/
def Message_fromAnthropicMessage (role : String)
    (content : List AnthropicContent) : Except String Message :=
  match content.mapM convertAnthropicContent with
  | .error e => .error e
  | .ok blocks =>
    .ok ⟨if role = "assistant" then .assistant else .user, blocks⟩

def blockTag : ContentBlock → String
  | .text _ => "text"
  | .toolUse _ _ _ _ => "tool_use"
  | .toolResult _ => "tool_result"
  | .thinking _ _ => "thinking"
  | .userInput _ => "user_input"
  | .finalResponse _ => "final_response"
  | .exception _ => "exception"

/-- The block variant the ingest rules assign to each vendor block. -/
def expectedTag : AnthropicContent → String
  | .text t =>
    if strIncludes t "NEED_USER_INPUT" then "user_input"
    else if strIncludes t "FINAL_RESPONSE" then "final_response"
    else "text"
  | .toolUse _ _ _ => "tool_use"
  | .thinking _ _ => "thinking"
  | .other _ => "unknown"

theorem mapM_ok_forall₂ {α β ε : Type} (f : α → Except ε β) :
    ∀ (l : List α) (l' : List β), l.mapM f = .ok l' →
      List.Forall₂ (fun a b => f a = .ok b) l l' := by
  intro l
  induction l with
  | nil =>
    intro l' h
    simp only [List.mapM_nil, pure, Except.pure, Except.ok.injEq] at h
    rw [← h]
    exact List.Forall₂.nil
  | cons a rest ih =>
    intro l' h
    rw [List.mapM_cons] at h
    cases hfa : f a with
    | error e =>
      rw [hfa] at h
      simp only [bind, Except.bind] at h
      cases h
    | ok b =>
      rw [hfa] at h
      simp only [bind, Except.bind] at h
      cases hrest : rest.mapM f with
      | error e =>
        rw [hrest] at h
        cases h
      | ok bs =>
        rw [hrest] at h
        simp only [pure, Except.pure, Except.ok.injEq] at h
        rw [← h]
        exact List.Forall₂.cons hfa (ih bs hrest)

/-- The per-block ingest relation the claim describes: vendor block `c`
becomes neutral block `b`. -/
def ingestRel (c : AnthropicContent) (b : ContentBlock) : Prop :=
  match c with
  | .text t =>
    if strIncludes t "NEED_USER_INPUT" then ∃ r, b = ContentBlock.userInput r
    else if strIncludes t "FINAL_RESPONSE" then
      ∃ r, b = ContentBlock.finalResponse r
    else ∃ tb, b = ContentBlock.text tb
  | .toolUse tid name input => b = ContentBlock.toolUse tid name input true
  | .thinking sig th => b = ContentBlock.thinking sig th
  | .other _ => False

theorem convert_classify (c : AnthropicContent) (b : ContentBlock)
    (h : convertAnthropicContent c = .ok b) :
    ingestRel c b ∧ blockTag b = expectedTag c := by
  cases c with
  | text t =>
    by_cases h1 : strIncludes t "NEED_USER_INPUT" = true
    · rw [convertAnthropicContent, if_pos h1] at h
      cases h
      constructor
      · rw [ingestRel]
        rw [if_pos h1]
        exact ⟨_, rfl⟩
      · rw [expectedTag, if_pos h1]
        rfl
    · have h1f : strIncludes t "NEED_USER_INPUT" = false :=
        Bool.eq_false_iff.mpr h1
      by_cases h2 : strIncludes t "FINAL_RESPONSE" = true
      · rw [convertAnthropicContent, if_neg h1, if_pos h2] at h
        cases h
        constructor
        · rw [ingestRel]
          rw [if_neg h1, if_pos h2]
          exact ⟨_, rfl⟩
        · rw [expectedTag, if_neg h1, if_pos h2]
          rfl
      · rw [convertAnthropicContent, if_neg h1, if_neg h2] at h
        cases h
        constructor
        · rw [ingestRel]
          rw [if_neg h1, if_neg h2]
          exact ⟨_, rfl⟩
        · rw [expectedTag, if_neg h1, if_neg h2]
          rfl
  | toolUse tid name input =>
    rw [convertAnthropicContent] at h
    cases h
    exact ⟨rfl, rfl⟩
  | thinking sig th =>
    rw [convertAnthropicContent] at h
    cases h
    exact ⟨rfl, rfl⟩
  | other ty =>
    rw [convertAnthropicContent] at h
    cases h

theorem forall₂_map_eq {α β γ : Type} (g₁ : α → γ) (g₂ : β → γ)
    {l₁ : List α} {l₂ : List β}
    (h : List.Forall₂ (fun a b => g₂ b = g₁ a) l₁ l₂) :
    l₂.map g₂ = l₁.map g₁ := by
  induction h with
  | nil => rfl
  | cons hab _ ih => simp only [List.map_cons, hab, ih]

/-- C9: whenever `Message.fromAnthropicMessage` succeeds, each vendor block
maps in order to: a `UserInput` block when it is text containing
`NEED_USER_INPUT`; else a `FinalResponse` block when it is text containing
`FINAL_RESPONSE`; else a plain `Text` block; `tool_use` to `ToolUse` and
`thinking` to `Thinking`.  Consequently the ingested variants equal the
expected variants position-wise. -/
theorem fromAnthropicMessage_sentinel_classification (role : String)
    (content : List AnthropicContent) (msg : Message)
    (h : Message_fromAnthropicMessage role content = .ok msg) :
    List.Forall₂ ingestRel content msg.content ∧
    msg.content.map blockTag = content.map expectedTag := by
  rw [Message_fromAnthropicMessage] at h
  cases hm : content.mapM convertAnthropicContent with
  | error e => rw [hm] at h; cases h
  | ok blocks =>
    rw [hm] at h
    cases h
    have hf2 := mapM_ok_forall₂ convertAnthropicContent content blocks hm
    constructor
    · exact List.Forall₂.imp (fun c b hcb => (convert_classify c b hcb).1) hf2
    · exact forall₂_map_eq expectedTag blockTag
        (List.Forall₂.imp (fun c b hcb => (convert_classify c b hcb).2) hf2)

def wVendorContent : List AnthropicContent :=
  [.text "NEED_USER_INPUT: which city?",
   .text "FINAL_RESPONSE: done",
   .text "hello",
   .toolUse "t1" "weather" none,
   .thinking "sig" "hmm"]

theorem fromAnthropicMessage_sentinel_classification_witness :
    (⟨MessageRole.assistant,
      [ContentBlock.userInput "I need additional information to proceed.which city?",
       ContentBlock.finalResponse "done",
       ContentBlock.text ⟨"hello", true⟩,
       ContentBlock.toolUse "t1" "weather" none true,
       ContentBlock.thinking "sig" "hmm"]⟩ : Message).content.map blockTag
      = wVendorContent.map expectedTag :=
  (fromAnthropicMessage_sentinel_classification "assistant" wVendorContent
    ⟨MessageRole.assistant,
      [ContentBlock.userInput "I need additional information to proceed.which city?",
       ContentBlock.finalResponse "done",
       ContentBlock.text ⟨"hello", true⟩,
       ContentBlock.toolUse "t1" "weather" none true,
       ContentBlock.thinking "sig" "hmm"]⟩ rfl).2



end AntAI
